import Mathlib

/-!
Verification of the largest-inscribed-rectangle solver of d3plus-shape
(`largestRect` in src/src/types/Rectangle.js).

The solver is embedded shallowly over the real numbers: JavaScript numbers
become `ℝ`, the `Math.random()` stream becomes an explicit `rng : ℕ → ℝ`
argument, and each unbounded `while` loop of the source is given an explicit
iteration budget (`fuel`); a run that would still be looping when the budget
runs out is modelled as the outer `Option` being `none`, so every theorem
quantified over `fuel` covers every finite prefix of the JavaScript
execution.

The geometry helpers that Rectangle.js imports from sibling modules
(`pointInPoly`, `polyInPoly`, `rayIntersectsPoly`, `rotatePoly`, `simplify`,
`squaredDistance`) are not part of the analysed sources; they are modelled
from the specification, as marked on each definition.  The d3 library
functions (`range`, `extent`, `polygonArea`, `polygonCentroid`) are embedded
from their documented semantics.
-/

namespace D3Rect

/-- A 2D point: an ordered pair of real coordinates. -/
abbrev Point : Type := ℝ × ℝ

/-- A polygon: an ordered list of points with an implicit closing edge. -/
abbrev Polygon : Type := List Point

/-- Modelled from the spec: `squaredDistance(a, b)` is the sum of squared
coordinate differences. -/
noncomputable def squaredDistance (a b : Point) : ℝ :=
  (a.1 - b.1) ^ 2 + (a.2 - b.2) ^ 2

/-- 2D cross product of two vectors, used by the modelled geometry helpers. -/
noncomputable def cross (u v : Point) : ℝ :=
  u.1 * v.2 - u.2 * v.1

/-- Modelled from the spec: `rotatePoint(p, angleRadians, pivot)` is the
standard 2D rotation of `p` about `pivot`. -/
noncomputable def rotatePoint (p : Point) (theta : ℝ) (pivot : Point) : Point :=
  (pivot.1 + (p.1 - pivot.1) * Real.cos theta - (p.2 - pivot.2) * Real.sin theta,
   pivot.2 + (p.1 - pivot.1) * Real.sin theta + (p.2 - pivot.2) * Real.cos theta)

/-- Modelled from the spec: `rotatePoly` rotates every vertex of a polygon
about the pivot. -/
noncomputable def rotatePoly (poly : Polygon) (theta : ℝ) (pivot : Point) : Polygon :=
  poly.map (fun p => rotatePoint p theta pivot)

/-- The directed edge list of a polygon, one edge from each vertex to its
successor, the last vertex closing back to the first. -/
def edgesAux (first : Point) : Polygon → List (Point × Point)
  | [] => []
  | [p] => [(p, first)]
  | p :: q :: rest => (p, q) :: edgesAux first (q :: rest)

/-- All boundary edges of a polygon, including the implicit closing edge. -/
def edges : Polygon → List (Point × Point)
  | [] => []
  | p :: ps => edgesAux p (p :: ps)

/-- Modelled from the spec: `pointInPolygon` is the parity (ray-casting)
test: count boundary-edge crossings of a horizontal ray from the point to
+infinity with a half-open edge convention; an odd count means inside. -/
noncomputable def pointInPoly (p : Point) (poly : Polygon) : Bool :=
  (edges poly).foldl
    (fun acc e =>
      if (((p.2 < e.1.2) ∧ ¬(p.2 < e.2.2)) ∨ ((p.2 < e.2.2) ∧ ¬(p.2 < e.1.2))) ∧
          p.1 < (e.2.1 - e.1.1) * (p.2 - e.1.2) / (e.2.2 - e.1.2) + e.1.1
      then !acc else acc)
    false

/-- Orientation of the triple `(a, b, c)`: positive, zero or negative sign of
the cross product of `b - a` and `c - a`. -/
noncomputable def orient (a b c : Point) : ℝ :=
  cross (b.1 - a.1, b.2 - a.2) (c.1 - a.1, c.2 - a.2)

/-- Modelled from the spec: a proper (interior) crossing of two segments,
the edge-intersection predicate of the containment test; shared endpoints
are treated as non-crossing, the convention the spec leaves to the
implementer. -/
noncomputable def properIntersect (p1 p2 q1 q2 : Point) : Bool :=
  if orient p1 p2 q1 * orient p1 p2 q2 < 0 ∧ orient q1 q2 p1 * orient q1 q2 p2 < 0
  then true else false

/-- Modelled from the spec: `polygonInPolygon(inner, outer)` holds iff every
vertex of `inner` passes the point-in-polygon test against `outer` and no
edge of `inner` properly crosses an edge of `outer`. -/
noncomputable def polyInPoly (inner outer : Polygon) : Bool :=
  inner.all (fun q => pointInPoly q outer) &&
    (edges inner).all (fun ei => (edges outer).all (fun eo =>
      !properIntersect ei.1 ei.2 eo.1 eo.2))

/-- Intersection of the infinite line through `o` with direction `d` and the
segment from `a` to `b`: the line parameter `t` and the intersection point,
or `none` when the segment is parallel to the line or the intersection falls
outside the segment.  Arithmetic is exact, so the epsilon the spec suggests
for parallel rays is the exact test `den = 0`. -/
noncomputable def edgeHit (o d a b : Point) : Option (ℝ × Point) :=
  let e : Point := (b.1 - a.1, b.2 - a.2)
  let den := cross d e
  if den = 0 then none
  else
    let t := cross (a.1 - o.1, a.2 - o.2) e / den
    let s := cross (a.1 - o.1, a.2 - o.2) d / den
    if 0 ≤ s ∧ s ≤ 1 then some (t, (o.1 + t * d.1, o.2 + t * d.2)) else none

/-- Modelled from the spec: `rayIntersectsPolygon(polygon, origin, angle)`
casts a line through `origin` at the given angle in both directions and
returns the nearest boundary intersection on each side (`none` on a side
with no intersection).  Every edge is tested exactly once. -/
noncomputable def rayIntersectsPoly (poly : Polygon) (o : Point) (theta : ℝ) :
    Option Point × Option Point :=
  let d : Point := (Real.cos theta, Real.sin theta)
  let hits := (edges poly).filterMap (fun e => edgeHit o d e.1 e.2)
  let fwd := hits.foldl
    (fun best h =>
      if 0 ≤ h.1 then
        match best with
        | none => some h
        | some b => if h.1 < b.1 then some h else some b
      else best) none
  let bwd := hits.foldl
    (fun best h =>
      if h.1 < 0 then
        match best with
        | none => some h
        | some b => if b.1 < h.1 then some h else some b
      else best) none
  (fwd.map Prod.snd, bwd.map Prod.snd)

/-- d3-polygon `polygonArea`: the signed shoelace area. -/
noncomputable def polygonArea (poly : Polygon) : ℝ :=
  ((edges poly).foldl (fun acc e => acc + (e.1.2 * e.2.1 - e.1.1 * e.2.2)) 0) / 2

/-- d3-polygon `polygonCentroid`: the area-weighted centroid. -/
noncomputable def polygonCentroid (poly : Polygon) : Point :=
  let acc := (edges poly).foldl
    (fun acc e =>
      let c := e.1.1 * e.2.2 - e.2.1 * e.1.2
      (acc.1 + (e.1.1 + e.2.1) * c, (acc.2.1 + (e.1.2 + e.2.2) * c, acc.2.2 + c)))
    (0, (0, 0))
  (acc.1 / (acc.2.2 * 3), acc.2.1 / (acc.2.2 * 3))

/-- d3-array `range(start, stop, step)`: the arithmetic progression
`start, start + step, ...` of length `max 0 ⌈(stop - start) / step⌉`. -/
noncomputable def d3range (start stop step : ℝ) : List ℝ :=
  (List.range (max 0 ⌈(stop - start) / step⌉).toNat).map (fun i => start + step * i)

/-- The smaller coordinate of d3-array `extent`. -/
noncomputable def minList : List ℝ → ℝ
  | [] => 0
  | x :: xs => xs.foldl min x

/-- The larger coordinate of d3-array `extent`. -/
noncomputable def maxList : List ℝ → ℝ
  | [] => 0
  | x :: xs => xs.foldl max x

/-- Modelled from the spec: squared perpendicular deviation of `p` from the
chord through `a` and `b` (squared distance to `a` when the chord is
degenerate), the quantity Douglas-Peucker compares against the tolerance. -/
noncomputable def perpDevSq (p a b : Point) : ℝ :=
  if a = b then squaredDistance p a
  else cross (b.1 - a.1, b.2 - a.2) (p.1 - a.1, p.2 - a.2) ^ 2 / squaredDistance a b

/-- Interior point of maximum perpendicular deviation from the chord:
returns the squared deviation and the index into the interior list. -/
noncomputable def maxDevAux (a b : Point) : List Point → ℕ → ℝ → ℕ → ℝ × ℕ
  | [], _, bestD, bestI => (bestD, bestI)
  | p :: rest, i, bestD, bestI =>
      let d := perpDevSq p a b
      if bestD < d then maxDevAux a b rest (i + 1) d i
      else maxDevAux a b rest (i + 1) bestD bestI

/-- Modelled from the spec: one Douglas-Peucker pass with an explicit
recursion budget; finds the interior point of maximum perpendicular
deviation from the first-to-last chord, keeps it and recurses when the
deviation exceeds the tolerance, else discards all interior points.
Deviations are compared squared, which is equivalent for the positive
tolerances the caller passes. -/
noncomputable def dpRec (tol : ℝ) : ℕ → List Point → List Point
  | 0, pts => pts
  | fuel + 1, pts =>
      if pts.length < 3 then pts
      else
        let a := pts.head?.getD (0, 0)
        let b := pts.getLast?.getD (0, 0)
        let mid := (pts.drop 1).dropLast
        let di := maxDevAux a b mid 0 0 0
        if tol ^ 2 < di.1 then
          let idx := di.2 + 1
          dpRec tol fuel (pts.take (idx + 1)) ++ (dpRec tol fuel (pts.drop idx)).drop 1
        else [a, b]

/-- Modelled from the spec: `simplify(polygon, toleranceDistance)` is
Douglas-Peucker over the polygon treated as an open chain from its first to
its last point; degenerate input (fewer than 3 points) is returned
unchanged. -/
noncomputable def simplify (poly : Polygon) (tol : ℝ) : Polygon :=
  dpRec tol poly.length poly

end D3Rect

namespace D3Rect

/-- Algorithm constant: step size for the aspect ratio. -/
noncomputable def aspectRatioStep : ℝ := 0.5

/-- Algorithm constant: step size for angles (in degrees). -/
noncomputable def angleStep : ℝ := 5

/-- A JavaScript option value as the `angle` / `aspectRatio` cascade
distinguishes it: an array, a number, a string that parses to a number, or
anything else (a non-numeric string, `null`, a boolean, an object, ...). -/
inductive NumOpt
  | list (xs : List ℝ)
  | num (x : ℝ)
  | numStr (x : ℝ)
  | badInput

/-- The `options.angle` / `options.aspectRatio` normalization cascade of
lines 156-164: an array is kept, a number or numeric string is wrapped in a
one-element list, anything else yields the empty list. -/
def numListOf : NumOpt → List ℝ
  | .list xs => xs
  | .num x => [x]
  | .numStr x => [x]
  | .badInput => []

/-- The `options.origin` value: absent, a single two-dimensional point, or
an array of points. -/
inductive OriginOpt
  | missing
  | pt (p : Point)
  | pts (ps : List Point)

/-- The `origins` normalization of lines 166-168: a single point is wrapped
into a one-element list, an absent origin yields the empty list. -/
def originsOf : OriginOpt → List Point
  | .missing => []
  | .pt p => [p]
  | .pts ps => ps

/-- The options record after the `Object.assign` defaulting of lines
145-154 (every recognized field present). -/
structure Options where
  angle : NumOpt
  aspectRatio : NumOpt
  maxAspectRatio : ℝ
  minAspectRatio : ℝ
  minHeight : ℝ
  minWidth : ℝ
  nTries : ℕ
  tolerance : ℝ
  origin : OriginOpt
  events : Bool

/-- The default options of lines 145-154 (`verbose` only selects console
logging and is not modelled; `events` defaults to off). -/
noncomputable def defaultOptions : Options where
  angle := .list (d3range (-90) (90 + angleStep) angleStep)
  aspectRatio := .badInput
  maxAspectRatio := 15
  minAspectRatio := 1
  minHeight := 0
  minWidth := 0
  nTries := 20
  tolerance := 0.02
  origin := .missing
  events := false

/-- A returned rectangle (the `LargestRect` object of line 277). -/
structure Rect where
  area : ℝ
  cx : ℝ
  cy : ℝ
  width : ℝ
  height : ℝ
  angle : ℝ
  points : List Point

/-- One entry of the diagnostic event trace (the objects pushed into
`events`). -/
inductive Event
  | simplify (poly : Polygon)
  | origins (points : List Point)
  | angle (angle : ℝ)
  | modifOrigin (idx : ℕ) (p1W p2W p1H p2H : Option Point) (modifOrigins : List Point)
  | origin (cx cy : ℝ)
  | aRatio (aRatio : ℝ)
  | rectangle (areaFraction cx cy width height angle : ℝ) (insidePoly : Bool)

/-- The JavaScript return value of line 295: `null`, a plain rectangle, or
(in diagnostic mode) an object carrying the event trace and the rectangle
fields when a rectangle was found. -/
inductive RetVal
  | null
  | rect (r : Rect)
  | withEvents (r : Option Rect) (events : List Event)

/-- The rectangle fields of a return value, if any. -/
def rectOf : RetVal → Option Rect
  | .null => none
  | .rect r => some r
  | .withEvents r _ => r

/-- The read-only data the search loops consult: the simplified polygon and
the scalar options. -/
structure SearchCtx where
  poly : Polygon
  area : ℝ
  widthStep : ℝ
  minWidth : ℝ
  minHeight : ℝ
  minAspectRatio : ℝ
  maxAspectRatio : ℝ
  aspectRatios : List ℝ

/-- The mutable search state: the best area and rectangle so far and the
event trace. -/
structure SState where
  maxArea : ℝ
  maxRect : Option Rect
  events : List Event

/-- `if (options.events) events.push(e)`. -/
def pushEv (ev : Bool) (s : SState) (e : Event) : SState :=
  if ev then { s with events := s.events ++ [e] } else s

/-- The four axis-aligned corners of a `width × height` rectangle centered
at `(cx, cy)` (lines 265-270). -/
noncomputable def rectPts (cx cy width height : ℝ) : Polygon :=
  [(cx - width / 2, cy - height / 2), (cx + width / 2, cy - height / 2),
   (cx + width / 2, cy + height / 2), (cx - width / 2, cy + height / 2)]

/-- A JavaScript IEEE number as the derived aspect-ratio bounds can produce
it: a finite real, an infinity from division by zero, or NaN. -/
inductive JsNum
  | nan
  | posInf
  | negInf
  | fin (x : ℝ)

/-- JavaScript division for the derived aspect-ratio bounds: division by
zero gives a signed infinity, `0 / 0` gives NaN. -/
noncomputable def jsDiv (a b : ℝ) : JsNum :=
  if b = 0 then (if a = 0 then .nan else if 0 < a then .posInf else .negInf)
  else .fin (a / b)

/-- JavaScript `Math.max` on the extended values (NaN propagates). -/
noncomputable def jsMax : JsNum → JsNum → JsNum
  | .nan, _ => .nan
  | _, .nan => .nan
  | .posInf, _ => .posInf
  | _, .posInf => .posInf
  | .negInf, y => y
  | x, .negInf => x
  | .fin a, .fin b => .fin (max a b)

/-- JavaScript `Math.min` on the extended values (NaN propagates). -/
noncomputable def jsMin : JsNum → JsNum → JsNum
  | .nan, _ => .nan
  | _, .nan => .nan
  | .negInf, _ => .negInf
  | _, .negInf => .negInf
  | .posInf, y => y
  | x, .posInf => x
  | .fin a, .fin b => .fin (min a b)

/-- The derived aspect-ratio range of lines 245-247: bounds combining the
configured limits with the per-origin geometry, stepped by
`aspectRatioStep`; a NaN or infinite bound yields the empty d3 range. -/
noncomputable def derivedRatios (minAR maxAR minW minH mw mh A : ℝ) : List ℝ :=
  match jsMax (.fin minAR) (jsMax (jsDiv minW mh) (jsDiv A (mh * mh))),
        jsMin (.fin maxAR) (jsMin (jsDiv mw minH) (jsDiv (mw * mw) A)) with
  | .fin lo, .fin hi => d3range lo (hi + aspectRatioStep) aspectRatioStep
  | _, _ => []

/-- The bound `maxWidth = 2 * sqrt(min squared distance)` of lines 231-234:
`none` when a width-axis ray misses the boundary on either side. -/
noncomputable def maxWidthAt (poly : Polygon) (origin : Point) (angleRad : ℝ) : Option ℝ :=
  match rayIntersectsPoly poly origin angleRad with
  | (some p1, some p2) =>
      some (2 * Real.sqrt (min (squaredDistance origin p1) (squaredDistance origin p2)))
  | _ => none

/-- The bound `maxHeight` of lines 236-239: the same bound along the height
axis. -/
noncomputable def maxHeightAt (poly : Polygon) (origin : Point) (angleRad : ℝ) : Option ℝ :=
  maxWidthAt poly origin (angleRad + Real.pi / 2)

end D3Rect

namespace D3Rect

/-- The binary search over rectangle widths of lines 261-285: at the probe
width, build the rotated candidate rectangle, test containment, and either
record the candidate and raise the lower bound or lower the upper bound;
the loop ends when the interval is narrower than `widthStep`.  `fuel` bounds
the number of iterations; `none` models a run still looping at exhaustion. -/
noncomputable def bsearch (c : SearchCtx) (ev : Bool) (angleRad angle : ℝ)
    (origin : Point) (aRatio : ℝ) :
    ℕ → ℝ → ℝ → SState → Option SState
  | 0, left, right, s => if c.widthStep ≤ right - left then none else some s
  | fuel + 1, left, right, s =>
      if c.widthStep ≤ right - left then
        let width := (left + right) / 2
        let height := width / aRatio
        let cx := origin.1
        let cy := origin.2
        let rectPoly := rotatePoly (rectPts cx cy width height) angleRad origin
        let insidePoly := polyInPoly rectPoly c.poly
        if insidePoly then
          let s1 : SState :=
            { maxArea := width * height,
              maxRect := some
                { area := width * height, cx := cx, cy := cy, width := width,
                  height := height, angle := angle,
                  points := rectPoly ++ rectPoly.take 1 },
              events := s.events }
          let s2 := pushEv ev s1
            (.rectangle (width * height / c.area) cx cy width height angle true)
          bsearch c ev angleRad angle origin aRatio fuel width right s2
        else
          let s2 := pushEv ev s
            (.rectangle (width * height / c.area) cx cy width height angle false)
          bsearch c ev angleRad angle origin aRatio fuel left width s2
      else some s

/-- One aspect ratio of lines 250-259: compute the binary-search interval,
skip the ratio when even the widest rectangle cannot reach the best area,
otherwise run the width binary search. -/
noncomputable def processARatio (c : SearchCtx) (ev : Bool) (angleRad angle : ℝ)
    (origin : Point) (maxWidth maxHeight : ℝ) (fuel : ℕ) (aRatio : ℝ)
    (s : SState) : Option SState :=
  let left := max c.minWidth (Real.sqrt (s.maxArea * aRatio))
  let right := min maxWidth (maxHeight * aRatio)
  if right * maxHeight < s.maxArea then some s
  else
    let s := if ev ∧ c.widthStep ≤ right - left
      then { s with events := s.events ++ [.aRatio aRatio] } else s
    bsearch c ev angleRad angle origin aRatio fuel left right s

/-- The aspect-ratio loop of line 250. -/
noncomputable def processARatios (c : SearchCtx) (ev : Bool) (angleRad angle : ℝ)
    (origin : Point) (maxWidth maxHeight : ℝ) (fuel : ℕ) :
    List ℝ → SState → Option SState
  | [], s => some s
  | aRatio :: rest, s =>
      match processARatio c ev angleRad angle origin maxWidth maxHeight fuel aRatio s with
      | none => none
      | some s1 => processARatios c ev angleRad angle origin maxWidth maxHeight fuel rest s1

/-- One recentered origin of lines 225-248: bound the feasible width and
height by ray casting, prune the origin when those bounds cannot beat the
best area, otherwise enumerate the aspect ratios (the explicit list, or the
derived range). -/
noncomputable def processModifOrigin (c : SearchCtx) (ev : Bool) (angleRad angle : ℝ)
    (fuel : ℕ) (origin : Point) (s : SState) : Option SState :=
  let s := pushEv ev s (.origin origin.1 origin.2)
  match maxWidthAt c.poly origin angleRad with
  | none => some s
  | some maxWidth =>
      match maxHeightAt c.poly origin angleRad with
      | none => some s
      | some maxHeight =>
          if maxWidth * maxHeight < s.maxArea then some s
          else
            let aRatios := if c.aspectRatios.isEmpty
              then derivedRatios c.minAspectRatio c.maxAspectRatio c.minWidth
                c.minHeight maxWidth maxHeight s.maxArea
              else c.aspectRatios
            processARatios c ev angleRad angle origin maxWidth maxHeight fuel aRatios s

/-- The loop over the recentered origins of line 225. -/
noncomputable def processModifOrigins (c : SearchCtx) (ev : Bool) (angleRad angle : ℝ)
    (fuel : ℕ) : List Point → SState → Option SState
  | [], s => some s
  | origin :: rest, s =>
      match processModifOrigin c ev angleRad angle fuel origin s with
      | none => none
      | some s1 => processModifOrigins c ev angleRad angle fuel rest s1

/-- One sampled origin of lines 214-224: cast the width-axis and
height-axis rays through it and recenter it to the midpoint of each pair of
boundary hits, giving up to two improved origins. -/
noncomputable def processOrigin (c : SearchCtx) (ev : Bool) (angleRad angle : ℝ)
    (fuel : ℕ) (idx : ℕ) (origOrigin : Point) (s : SState) : Option SState :=
  let wHits := rayIntersectsPoly c.poly origOrigin angleRad
  let hHits := rayIntersectsPoly c.poly origOrigin (angleRad + Real.pi / 2)
  let moW : List Point := match wHits with
    | (some p1, some p2) => [((p1.1 + p2.1) / 2, (p1.2 + p2.2) / 2)]
    | _ => []
  let moH : List Point := match hHits with
    | (some p1, some p2) => [((p1.1 + p2.1) / 2, (p1.2 + p2.2) / 2)]
    | _ => []
  let modifOrigins := moW ++ moH
  let s := pushEv ev s (.modifOrigin idx wHits.1 wHits.2 hHits.1 hHits.2 modifOrigins)
  processModifOrigins c ev angleRad angle fuel modifOrigins s

/-- The `origins.forEach` loop of line 214 (the index only feeds the event
trace). -/
noncomputable def processOrigins (c : SearchCtx) (ev : Bool) (angleRad angle : ℝ)
    (fuel : ℕ) : List Point → ℕ → SState → Option SState
  | [], _, s => some s
  | origin :: rest, idx, s =>
      match processOrigin c ev angleRad angle fuel idx origin s with
      | none => none
      | some s1 => processOrigins c ev angleRad angle fuel rest (idx + 1) s1

/-- One angle of lines 210-213: convert to radians with the sign-negated
convention and walk the origins. -/
noncomputable def processAngle (c : SearchCtx) (ev : Bool) (origins : List Point)
    (fuel : ℕ) (angle : ℝ) (s : SState) : Option SState :=
  let angleRad := -angle * Real.pi / 180
  processOrigins c ev angleRad angle fuel origins 0 (pushEv ev s (.angle angle))

/-- The `angles.forEach` loop of line 210. -/
noncomputable def processAngles (c : SearchCtx) (ev : Bool) (origins : List Point)
    (fuel : ℕ) : List ℝ → SState → Option SState
  | [], s => some s
  | angle :: rest, s =>
      match processAngle c ev origins fuel angle s with
      | none => none
      | some s1 => processAngles c ev origins fuel rest s1

/-- The rejection-sampling loop of lines 199-204: draw uniform points in the
bounding box until `nTries` interior points are collected.  The source
`while` has no attempt cap; `fuel` bounds the modelled iterations and
`none` stands for a run still looping when it is exhausted. -/
noncomputable def sampleLoop (poly : Polygon) (boxW boxH minx miny : ℝ) (nTries : ℕ)
    (rng : ℕ → ℝ) : ℕ → ℕ → List Point → Option (List Point)
  | 0, _, acc => if nTries ≤ acc.length then some acc else none
  | fuel + 1, k, acc =>
      if nTries ≤ acc.length then some acc
      else
        let p : Point := (rng (2 * k) * boxW + minx, rng (2 * k + 1) * boxH + miny)
        sampleLoop poly boxW boxH minx miny nTries rng fuel (k + 1)
          (if pointInPoly p poly then acc ++ [p] else acc)

/-- The tolerance-scaled simplification of lines 176-182: simplify only when
the derived tolerance distance is positive. -/
noncomputable def simplifiedPoly (poly : Polygon) (tolOpt : ℝ) : Polygon :=
  let minx := minList (poly.map Prod.fst)
  let maxx := maxList (poly.map Prod.fst)
  let miny := minList (poly.map Prod.snd)
  let maxy := maxList (poly.map Prod.snd)
  let tol := min (maxx - minx) (maxy - miny) * tolOpt
  if 0 < tol then simplify poly tol else poly

/-- The search context `largestRect` builds from its input (the simplified
polygon, the discretization step and the scalar options). -/
noncomputable def ctxOf (poly : Polygon) (opts : Options) : SearchCtx :=
  { poly := simplifiedPoly poly opts.tolerance,
    area := |polygonArea poly|,
    widthStep :=
      min (maxList ((simplifiedPoly poly opts.tolerance).map Prod.fst) -
           minList ((simplifiedPoly poly opts.tolerance).map Prod.fst))
          (maxList ((simplifiedPoly poly opts.tolerance).map Prod.snd) -
           minList ((simplifiedPoly poly opts.tolerance).map Prod.snd)) / 50,
    minWidth := opts.minWidth,
    minHeight := opts.minHeight,
    minAspectRatio := opts.minAspectRatio,
    maxAspectRatio := opts.maxAspectRatio,
    aspectRatios := numListOf opts.aspectRatio }

/-- The largest-rectangle solver (the default export of Rectangle.js,
lines 134-297).  `rng : ℕ → ℝ` supplies the `Math.random()` stream (values
in `[0, 1)`); `fuel` bounds each source `while` loop, with `none` modelling
a run that is still looping when the bound is reached. -/
noncomputable def largestRect (poly : Polygon) (opts : Options) (rng : ℕ → ℝ)
    (fuel : ℕ) : Option RetVal :=
  if poly.length < 3 then some .null
  else
    let angles := numListOf opts.angle
    let aspectRatios := numListOf opts.aspectRatio
    let origins0 := originsOf opts.origin
    let area := |polygonArea poly|
    if area = 0 then some .null
    else
      let poly1 := simplifiedPoly poly opts.tolerance
      let ev0 : List Event := if opts.events then [.simplify poly1] else []
      let minx := minList (poly1.map Prod.fst)
      let maxx := maxList (poly1.map Prod.fst)
      let miny := minList (poly1.map Prod.snd)
      let maxy := maxList (poly1.map Prod.snd)
      let boxW := maxx - minx
      let boxH := maxy - miny
      let widthStep := min boxW boxH / 50
      match (if origins0.isEmpty then
               sampleLoop poly1 boxW boxH minx miny opts.nTries rng fuel 0
                 (if pointInPoly (polygonCentroid poly1) poly1
                  then [polygonCentroid poly1] else [])
             else some origins0) with
      | none => none
      | some origins =>
          let c : SearchCtx := ctxOf poly opts
          let s0 : SState :=
            { maxArea := 0, maxRect := none,
              events := ev0 ++ (if opts.events then [.origins origins] else []) }
          match processAngles c opts.events origins fuel angles s0 with
          | none => none
          | some s =>
              some (if opts.events then .withEvents s.maxRect s.events
                    else match s.maxRect with
                         | none => .null
                         | some r => .rect r)

end D3Rect

namespace D3Rect

/-! ### Concrete scenario constants

`sqPoly` is the unit square of the spec's test scenario.  `c4opts` fixes the
center, a single angle and a single aspect ratio, a positive `minWidth` and
`minHeight`, and turns simplification off, so that the whole search is a
single binary-search probe; `c4c` is the search context that run builds and
`r4` the rectangle it returns.  `dblSquare` is a positive-area polygon that
traverses the same square twice, so the parity point-in-polygon test fails
everywhere inside it; with `c5opts` (simplification off) it starves the
rejection-sampling loop. -/

/-- The unit square polygon of the spec's test scenario. -/
noncomputable def sqPoly : Polygon := [((0:ℝ), (0:ℝ)), (1, 0), (1, 1), (0, 1)]

/-- Options pinning the search to one origin, one angle and one explicit
aspect ratio, with positive minimum dimensions and simplification off. -/
noncomputable def c4opts : Options where
  angle := .num 0
  aspectRatio := .num 4
  maxAspectRatio := 15
  minAspectRatio := 1
  minHeight := 9/10
  minWidth := 97/100
  nTries := 20
  tolerance := 0
  origin := .pt (1/2, 1/2)
  events := false

/-- The search context `largestRect sqPoly c4opts` builds. -/
noncomputable def c4c : SearchCtx :=
  ⟨sqPoly, 1, 1/50, 97/100, 9/10, 1, 15, [4]⟩

/-- The rectangle `largestRect sqPoly c4opts` returns. -/
noncomputable def r4 : Rect :=
  { area := 38809/160000, cx := 1/2, cy := 1/2, width := 197/200, height := 197/800,
    angle := 0,
    points := [((3:ℝ)/400, (603:ℝ)/1600), (397/400, 603/1600), (397/400, 997/1600),
               (3/400, 997/1600), (3/400, 603/1600)] }

/-- A square traversed twice: its shoelace area is nonzero, but every
horizontal ray crosses each boundary edge an even number of times, so the
parity point-in-polygon test rejects every point. -/
noncomputable def dblSquare : Polygon :=
  [((0:ℝ), (0:ℝ)), (4, 0), (4, 4), (0, 4), (0, 0), (4, 0), (4, 4), (0, 4)]

/-- Default options with simplification turned off. -/
noncomputable def c5opts : Options :=
  { defaultOptions with tolerance := 0 }

/-! ### Search invariants -/

/-- The candidate-independent part of the search state: the best area and
best rectangle, everything the result is built from. -/
def SState.core (s : SState) : ℝ × Option Rect := (s.maxArea, s.maxRect)

/-- Everything the search guarantees of a recorded rectangle: it passed the
containment test against the (simplified) search polygon, its `area` field
is `width * height`, its width is at least the configured minimum, its
angle is one of the searched angles, and its `points` are the four rotated
corners around its center followed by the repeated first corner. -/
def GoodRect (c : SearchCtx) (angles : List ℝ) (r : Rect) : Prop :=
  polyInPoly r.points.dropLast c.poly = true ∧
  r.area = r.width * r.height ∧
  c.minWidth ≤ r.width ∧
  r.angle ∈ angles ∧
  r.points =
    rotatePoly (rectPts r.cx r.cy r.width r.height) (-r.angle * Real.pi / 180) (r.cx, r.cy) ++
    (rotatePoly (rectPts r.cx r.cy r.width r.height) (-r.angle * Real.pi / 180) (r.cx, r.cy)).take 1 ∧
  r.points.length = 5 ∧
  r.points.getLast? = r.points.head?

/-- The state invariant of the search: the best area is nonnegative and any
retained rectangle is `GoodRect`. -/
def GoodS (c : SearchCtx) (angles : List ℝ) (s : SState) : Prop :=
  0 ≤ s.maxArea ∧ ∀ r, s.maxRect = some r → GoodRect c angles r

/-- Invariant of the width binary search, tying the running lower bound to
the best area: the lower bound is nonnegative and at least
`sqrt(maxArea * aRatio)`, and a nonpositive ratio forces a degenerate
interval with zero best area. -/
def BInv (aRatio l r A : ℝ) : Prop :=
  0 ≤ l ∧ A * aRatio ≤ l ^ 2 ∧ (aRatio ≤ 0 → r ≤ 0 ∧ A = 0)

/-- The containment facts of every candidate `largestRect` retains: its four
rotated corners (the recorded points without the closing point) passed the
`polyInPoly` test against the simplified input polygon, which by the modelled
containment contract means every corner passes `pointInPoly` and no
corner-to-corner edge properly crosses a polygon edge. -/
def ContainmentOK (poly : Polygon) (opts : Options) (r : Rect) : Prop :=
  polyInPoly r.points.dropLast (simplifiedPoly poly opts.tolerance) = true ∧
  (r.points.dropLast.all fun q => pointInPoly q (simplifiedPoly poly opts.tolerance)) = true ∧
  ∀ ei ∈ edges r.points.dropLast, ∀ eo ∈ edges (simplifiedPoly poly opts.tolerance),
    properIntersect ei.1 ei.2 eo.1 eo.2 = false

/-- The shape facts of every rectangle `largestRect` returns: its `area`
field is `width * height`, its angle is one of the derived angles, and its
`points` are the four corners of the `width × height` rectangle centered at
`(cx, cy)`, rotated about that center, with the first corner repeated as an
explicit closing point (five points in all). -/
def ShapeOK (opts : Options) (r : Rect) : Prop :=
  r.area = r.width * r.height ∧
  r.angle ∈ numListOf opts.angle ∧
  r.points.length = 5 ∧
  r.points.getLast? = r.points.head? ∧
  r.points =
    rotatePoly (rectPts r.cx r.cy r.width r.height) (-r.angle * Real.pi / 180) (r.cx, r.cy) ++
    (rotatePoly (rectPts r.cx r.cy r.width r.height) (-r.angle * Real.pi / 180) (r.cx, r.cy)).take 1


end D3Rect

namespace D3Rect

@[simp] lemma pushEv_maxArea (ev : Bool) (s : SState) (e : Event) :
    (pushEv ev s e).maxArea = s.maxArea := by
  unfold pushEv; split <;> rfl

@[simp] lemma pushEv_maxRect (ev : Bool) (s : SState) (e : Event) :
    (pushEv ev s e).maxRect = s.maxRect := by
  unfold pushEv; split <;> rfl

@[simp] lemma pushEv_core (ev : Bool) (s : SState) (e : Event) :
    (pushEv ev s e).core = s.core := by
  unfold SState.core; simp

lemma goodS_pushEv {c : SearchCtx} {angles : List ℝ} {ev : Bool} {s : SState} {e : Event} :
    GoodS c angles (pushEv ev s e) ↔ GoodS c angles s := by
  unfold GoodS; simp

lemma closure_facts {α : Type} (l : List α) (hne : l ≠ []) :
    (l ++ l.take 1).dropLast = l ∧ (l ++ l.take 1).length = l.length + 1 ∧
    (l ++ l.take 1).getLast? = l.head? := by
  cases l with
  | nil => exact absurd rfl hne
  | cons x xs =>
      refine ⟨?_, ?_, ?_⟩
      · simp only [List.take_cons_succ, List.take_zero]
        rw [List.dropLast_concat]
      · simp
      · simp only [List.take_cons_succ, List.take_zero, List.head?_cons]
        rw [List.getLast?_concat]

lemma rotatePoly_rectPts_ne_nil (cx cy w h theta : ℝ) (piv : Point) :
    rotatePoly (rectPts cx cy w h) theta piv ≠ [] := by
  simp [rotatePoly, rectPts]

lemma bsearch_good (c : SearchCtx) (ev : Bool) (angleRad angle : ℝ) (origin : Point)
    (aRatio : ℝ) (angles : List ℝ) (hrad : angleRad = -angle * Real.pi / 180)
    (hang : angle ∈ angles) (hws : 0 ≤ c.widthStep) :
    ∀ fuel l r s s', bsearch c ev angleRad angle origin aRatio fuel l r s = some s' →
      c.minWidth ≤ l → BInv aRatio l r s.maxArea → GoodS c angles s →
      GoodS c angles s' ∧ s.maxArea ≤ s'.maxArea := by
  intro fuel
  induction fuel with
  | zero =>
      intro l r s s' h hmin hinv hgood
      rw [bsearch] at h
      split at h
      · exact absurd h (by simp)
      · cases h; exact ⟨hgood, le_refl _⟩
  | succ fuel ih =>
      intro l r s s' h hmin hinv hgood
      rw [bsearch] at h
      dsimp only at h
      split at h
      case isFalse => cases h; exact ⟨hgood, le_refl _⟩
      case isTrue hg =>
        obtain ⟨hl0, hl2, hneg⟩ := hinv
        have hlr : l ≤ r := le_trans (le_add_of_nonneg_left hws) (by linarith)
        have hlw : l ≤ (l + r) / 2 := by linarith
        have hw0 : 0 ≤ (l + r) / 2 := le_trans hl0 hlw
        -- the new best area is nonnegative and at least the old one
        have harea_cases :
            (0 < aRatio ∧ s.maxArea ≤ (l + r) / 2 * ((l + r) / 2 / aRatio) ∧
              0 ≤ (l + r) / 2 * ((l + r) / 2 / aRatio)) ∨
            (aRatio ≤ 0 ∧ (l + r) / 2 = 0 ∧ s.maxArea = 0) := by
          rcases le_or_lt aRatio 0 with haR | haR
          · obtain ⟨hr0, hA0⟩ := hneg haR
            have hz : l = 0 ∧ r = 0 := by constructor <;> linarith
            right
            exact ⟨haR, by rw [hz.1, hz.2]; ring, hA0⟩
          · left
            refine ⟨haR, ?_, ?_⟩
            · have hw2 : s.maxArea * aRatio ≤ ((l + r) / 2) ^ 2 := by
                calc s.maxArea * aRatio ≤ l ^ 2 := hl2
                _ ≤ ((l + r) / 2) ^ 2 := by
                    apply pow_le_pow_left₀ hl0 hlw
              calc s.maxArea = s.maxArea * aRatio / aRatio := by field_simp
              _ ≤ ((l + r) / 2) ^ 2 / aRatio := (div_le_div_right haR).mpr hw2
              _ = (l + r) / 2 * ((l + r) / 2 / aRatio) := by ring
            · positivity
        have hnewA_nonneg : 0 ≤ (l + r) / 2 * ((l + r) / 2 / aRatio) := by
          rcases harea_cases with ⟨_, _, h3⟩ | ⟨_, hw, _⟩
          · exact h3
          · rw [hw]; ring_nf; exact le_refl _
        have hmono : s.maxArea ≤ (l + r) / 2 * ((l + r) / 2 / aRatio) := by
          rcases harea_cases with ⟨_, h2, _⟩ | ⟨_, hw, hA0⟩
          · exact h2
          · rw [hw, hA0]; ring_nf; exact le_refl _
        split at h
        case isTrue hin =>
          -- containment succeeded: the candidate is recorded
          have hinv2 : BInv aRatio ((l + r) / 2) r ((l + r) / 2 * ((l + r) / 2 / aRatio)) := by
            refine ⟨hw0, ?_, ?_⟩
            · rcases harea_cases with ⟨haR, _, _⟩ | ⟨haR, hw, _⟩
              · have heq : (l + r) / 2 * ((l + r) / 2 / aRatio) * aRatio = ((l + r) / 2) ^ 2 := by
                  field_simp; ring
                rw [heq]
              · rw [hw]; ring_nf; positivity
            · intro haR
              obtain ⟨hr0, _⟩ := hneg haR
              have hz : l = 0 ∧ r = 0 := by constructor <;> linarith
              exact ⟨hr0, by rw [hz.1, hz.2]; ring⟩
          have hgood2 : GoodS c angles
              (pushEv ev
                { maxArea := (l + r) / 2 * ((l + r) / 2 / aRatio),
                  maxRect := some
                    { area := (l + r) / 2 * ((l + r) / 2 / aRatio), cx := origin.1,
                      cy := origin.2, width := (l + r) / 2, height := (l + r) / 2 / aRatio,
                      angle := angle,
                      points :=
                        rotatePoly (rectPts origin.1 origin.2 ((l + r) / 2) ((l + r) / 2 / aRatio))
                            angleRad origin ++
                          (rotatePoly (rectPts origin.1 origin.2 ((l + r) / 2) ((l + r) / 2 / aRatio))
                              angleRad origin).take 1 },
                  events := s.events }
                (.rectangle ((l + r) / 2 * ((l + r) / 2 / aRatio) / c.area) origin.1 origin.2
                  ((l + r) / 2) ((l + r) / 2 / aRatio) angle true)) := by
            rw [goodS_pushEv]
            refine ⟨hnewA_nonneg, ?_⟩
            intro rr hrr
            simp only [Option.some.injEq] at hrr
            subst hrr
            obtain ⟨hdl, hlen, hlast⟩ := closure_facts
              (rotatePoly (rectPts origin.1 origin.2 ((l + r) / 2) ((l + r) / 2 / aRatio))
                angleRad origin)
              (rotatePoly_rectPts_ne_nil _ _ _ _ _ _)
            refine ⟨?_, rfl, le_trans hmin hlw, hang, ?_, ?_, ?_⟩
            · simpa only [hdl] using hin
            · simp only [← hrad, Prod.mk.eta]
            · rw [hlen]
              simp [rotatePoly, rectPts]
            · exact hlast
          obtain ⟨hg', hm'⟩ := ih _ _ _ _ h (le_trans hmin hlw)
            (by simpa only [pushEv_maxArea] using hinv2) hgood2
          refine ⟨hg', le_trans hmono ?_⟩
          simpa only [pushEv_maxArea] using hm'
        case isFalse hin =>
          -- containment failed: only the upper bound moves
          have hinv2 : BInv aRatio l ((l + r) / 2) s.maxArea := by
            refine ⟨hl0, hl2, ?_⟩
            intro haR
            obtain ⟨hr0, hA0⟩ := hneg haR
            have hz : l = 0 ∧ r = 0 := by constructor <;> linarith
            exact ⟨by rw [hz.1, hz.2]; ring_nf; exact le_refl _, hA0⟩
          obtain ⟨hg', hm'⟩ := ih _ _ _ _ h hmin
            (by simpa only [pushEv_maxArea] using hinv2) (goodS_pushEv.mpr hgood)
          exact ⟨hg', by simpa only [pushEv_maxArea] using hm'⟩



end D3Rect

namespace D3Rect

lemma bsearch_mono (c : SearchCtx) (ev : Bool) (angleRad angle : ℝ) (origin : Point)
    (aRatio : ℝ) (hws : 0 ≤ c.widthStep) :
    ∀ fuel l r s s', bsearch c ev angleRad angle origin aRatio fuel l r s = some s' →
      BInv aRatio l r s.maxArea → s.maxArea ≤ s'.maxArea := by
  intro fuel
  induction fuel with
  | zero =>
      intro l r s s' h hinv
      rw [bsearch] at h
      split at h
      · exact absurd h (by simp)
      · cases h; exact le_refl _
  | succ fuel ih =>
      intro l r s s' h hinv
      rw [bsearch] at h
      dsimp only at h
      split at h
      case isFalse => cases h; exact le_refl _
      case isTrue hg =>
        obtain ⟨hl0, hl2, hneg⟩ := hinv
        have hlr : l ≤ r := le_trans (le_add_of_nonneg_left hws) (by linarith)
        have hlw : l ≤ (l + r) / 2 := by linarith
        have hw0 : 0 ≤ (l + r) / 2 := le_trans hl0 hlw
        have harea_cases :
            (0 < aRatio ∧ s.maxArea ≤ (l + r) / 2 * ((l + r) / 2 / aRatio)) ∨
            (aRatio ≤ 0 ∧ (l + r) / 2 = 0 ∧ s.maxArea = 0) := by
          rcases le_or_lt aRatio 0 with haR | haR
          · obtain ⟨hr0, hA0⟩ := hneg haR
            have hz : l = 0 ∧ r = 0 := by constructor <;> linarith
            right
            exact ⟨haR, by rw [hz.1, hz.2]; ring, hA0⟩
          · left
            refine ⟨haR, ?_⟩
            have hw2 : s.maxArea * aRatio ≤ ((l + r) / 2) ^ 2 := by
              calc s.maxArea * aRatio ≤ l ^ 2 := hl2
              _ ≤ ((l + r) / 2) ^ 2 := by apply pow_le_pow_left₀ hl0 hlw
            calc s.maxArea = s.maxArea * aRatio / aRatio := by field_simp
            _ ≤ ((l + r) / 2) ^ 2 / aRatio := (div_le_div_right haR).mpr hw2
            _ = (l + r) / 2 * ((l + r) / 2 / aRatio) := by ring
        have hmono : s.maxArea ≤ (l + r) / 2 * ((l + r) / 2 / aRatio) := by
          rcases harea_cases with ⟨_, h2⟩ | ⟨_, hw, hA0⟩
          · exact h2
          · rw [hw, hA0]; ring_nf; exact le_refl _
        split at h
        case isTrue hin =>
          have hinv2 : BInv aRatio ((l + r) / 2) r ((l + r) / 2 * ((l + r) / 2 / aRatio)) := by
            refine ⟨hw0, ?_, ?_⟩
            · rcases harea_cases with ⟨haR, _⟩ | ⟨haR, hw, _⟩
              · have heq : (l + r) / 2 * ((l + r) / 2 / aRatio) * aRatio = ((l + r) / 2) ^ 2 := by
                  field_simp; ring
                rw [heq]
              · rw [hw]; ring_nf; positivity
            · intro haR
              obtain ⟨hr0, _⟩ := hneg haR
              have hz : l = 0 ∧ r = 0 := by constructor <;> linarith
              exact ⟨hr0, by rw [hz.1, hz.2]; ring⟩
          have hm' := ih _ _ _ _ h (by simpa only [pushEv_maxArea] using hinv2)
          simp only [pushEv_maxArea] at hm'
          exact le_trans hmono hm'
        case isFalse hin =>
          have hinv2 : BInv aRatio l ((l + r) / 2) s.maxArea := by
            refine ⟨hl0, hl2, ?_⟩
            intro haR
            obtain ⟨hr0, hA0⟩ := hneg haR
            have hz : l = 0 ∧ r = 0 := by constructor <;> linarith
            exact ⟨by rw [hz.1, hz.2]; ring_nf; exact le_refl _, hA0⟩
          have hm' := ih _ _ _ _ h (by simpa only [pushEv_maxArea] using hinv2)
          simpa only [pushEv_maxArea] using hm'

lemma bsearch_progress (c : SearchCtx) (ev : Bool) (angleRad angle : ℝ) (origin : Point)
    (aRatio : ℝ) (hws : 0 < c.widthStep) :
    ∀ fuel l r s s', bsearch c ev angleRad angle origin aRatio fuel l r s = some s' →
      BInv aRatio l r s.maxArea →
      (s'.maxArea = s.maxArea ∧ s'.maxRect = s.maxRect) ∨ s.maxArea < s'.maxArea := by
  intro fuel
  induction fuel with
  | zero =>
      intro l r s s' h hinv
      rw [bsearch] at h
      split at h
      · exact absurd h (by simp)
      · cases h; exact Or.inl ⟨rfl, rfl⟩
  | succ fuel ih =>
      intro l r s s' h hinv
      rw [bsearch] at h
      dsimp only at h
      split at h
      case isFalse => cases h; exact Or.inl ⟨rfl, rfl⟩
      case isTrue hg =>
        obtain ⟨hl0, hl2, hneg⟩ := hinv
        have haRpos : 0 < aRatio := by
          by_contra hc
          push_neg at hc
          obtain ⟨hr0, _⟩ := hneg hc
          linarith
        have hlw : l < (l + r) / 2 := by linarith
        have hw0 : 0 ≤ (l + r) / 2 := le_trans hl0 (le_of_lt hlw)
        have hstrict : s.maxArea < (l + r) / 2 * ((l + r) / 2 / aRatio) := by
          have hw2 : s.maxArea * aRatio < ((l + r) / 2) ^ 2 := by
            calc s.maxArea * aRatio ≤ l ^ 2 := hl2
            _ < ((l + r) / 2) ^ 2 := by
                apply pow_lt_pow_left hlw hl0
                norm_num
          calc s.maxArea = s.maxArea * aRatio / aRatio := by field_simp
          _ < ((l + r) / 2) ^ 2 / aRatio := (div_lt_div_right haRpos).mpr hw2
          _ = (l + r) / 2 * ((l + r) / 2 / aRatio) := by ring
        split at h
        case isTrue hin =>
          have hinv2 : BInv aRatio ((l + r) / 2) r ((l + r) / 2 * ((l + r) / 2 / aRatio)) := by
            refine ⟨hw0, ?_, ?_⟩
            · have heq : (l + r) / 2 * ((l + r) / 2 / aRatio) * aRatio = ((l + r) / 2) ^ 2 := by
                field_simp; ring
              rw [heq]
            · intro haR; exact absurd haRpos (not_lt.mpr haR)
          have hm' := bsearch_mono c ev angleRad angle origin aRatio (le_of_lt hws)
            _ _ _ _ _ h (by simpa only [pushEv_maxArea] using hinv2)
          simp only [pushEv_maxArea] at hm'
          exact Or.inr (lt_of_lt_of_le hstrict hm')
        case isFalse hin =>
          have hinv2 : BInv aRatio l ((l + r) / 2) s.maxArea := by
            refine ⟨hl0, hl2, ?_⟩
            intro haR; exact absurd haRpos (not_lt.mpr haR)
          rcases ih _ _ _ _ h (by simpa only [pushEv_maxArea] using hinv2) with ⟨h1, h2⟩ | h1
          · left
            constructor
            · rw [h1, pushEv_maxArea]
            · rw [h2, pushEv_maxRect]
          · right
            simpa only [pushEv_maxArea] using h1

end D3Rect

namespace D3Rect

lemma goodS_events {c : SearchCtx} {angles : List ℝ} {s : SState} {E : List Event} :
    GoodS c angles { s with events := E } ↔ GoodS c angles s := by
  unfold GoodS; simp

lemma entry_BInv (c : SearchCtx) (mw mh aRatio A : ℝ) (hmh : 0 ≤ mh) (hA : 0 ≤ A)
    (hG : ¬ min mw (mh * aRatio) * mh < A) :
    BInv aRatio (max c.minWidth (Real.sqrt (A * aRatio))) (min mw (mh * aRatio)) A := by
  refine ⟨le_trans (Real.sqrt_nonneg _) (le_max_right _ _), ?_, ?_⟩
  · rcases le_or_lt 0 (A * aRatio) with hpos | hneg
    · calc A * aRatio = Real.sqrt (A * aRatio) ^ 2 := (Real.sq_sqrt hpos).symm
      _ ≤ max c.minWidth (Real.sqrt (A * aRatio)) ^ 2 :=
          pow_le_pow_left₀ (Real.sqrt_nonneg _) (le_max_right _ _) 2
    · exact le_trans (le_of_lt hneg) (sq_nonneg _)
  · intro haR
    have hr0 : min mw (mh * aRatio) ≤ 0 :=
      le_trans (min_le_right _ _) (mul_nonpos_iff.mpr (Or.inl ⟨hmh, haR⟩))
    refine ⟨hr0, le_antisymm ?_ hA⟩
    push_neg at hG
    calc A ≤ min mw (mh * aRatio) * mh := hG
    _ ≤ 0 := mul_nonpos_iff.mpr (Or.inr ⟨hr0, hmh⟩)

lemma processARatio_good (c : SearchCtx) (ev : Bool) (angleRad angle : ℝ) (origin : Point)
    (mw mh : ℝ) (fuel : ℕ) (aRatio : ℝ) (angles : List ℝ) (s s' : SState)
    (hrad : angleRad = -angle * Real.pi / 180) (hang : angle ∈ angles)
    (hws : 0 ≤ c.widthStep) (hmh : 0 ≤ mh)
    (h : processARatio c ev angleRad angle origin mw mh fuel aRatio s = some s')
    (hgood : GoodS c angles s) :
    GoodS c angles s' ∧ s.maxArea ≤ s'.maxArea := by
  rw [processARatio] at h
  dsimp only at h
  split at h
  case isTrue => cases h; exact ⟨hgood, le_refl _⟩
  case isFalse hG =>
    have hinv := entry_BInv c mw mh aRatio s.maxArea hmh hgood.1 hG
    split at h
    case isTrue =>
      obtain ⟨hg', hm'⟩ := bsearch_good c ev angleRad angle origin aRatio angles hrad hang hws
        _ _ _ _ _ h (le_max_left _ _) hinv (goodS_events.mpr hgood)
      exact ⟨hg', hm'⟩
    case isFalse =>
      exact bsearch_good c ev angleRad angle origin aRatio angles hrad hang hws
        _ _ _ _ _ h (le_max_left _ _) hinv hgood

lemma processARatio_progress (c : SearchCtx) (ev : Bool) (angleRad angle : ℝ)
    (origin : Point) (mw mh : ℝ) (fuel : ℕ) (aRatio : ℝ) (s s' : SState)
    (hws : 0 < c.widthStep) (hmh : 0 ≤ mh) (hA : 0 ≤ s.maxArea)
    (h : processARatio c ev angleRad angle origin mw mh fuel aRatio s = some s') :
    (s'.maxArea = s.maxArea ∧ s'.maxRect = s.maxRect) ∨ s.maxArea < s'.maxArea := by
  rw [processARatio] at h
  dsimp only at h
  split at h
  case isTrue => cases h; exact Or.inl ⟨rfl, rfl⟩
  case isFalse hG =>
    have hinv := entry_BInv c mw mh aRatio s.maxArea hmh hA hG
    split at h
    case isTrue =>
      have hp := bsearch_progress c ev angleRad angle origin aRatio hws _ _ _ _ _ h hinv
      exact hp
    case isFalse =>
      exact bsearch_progress c ev angleRad angle origin aRatio hws _ _ _ _ _ h hinv

lemma processARatios_good (c : SearchCtx) (ev : Bool) (angleRad angle : ℝ) (origin : Point)
    (mw mh : ℝ) (fuel : ℕ) (angles : List ℝ)
    (hrad : angleRad = -angle * Real.pi / 180) (hang : angle ∈ angles)
    (hws : 0 ≤ c.widthStep) (hmh : 0 ≤ mh) :
    ∀ rs s s', processARatios c ev angleRad angle origin mw mh fuel rs s = some s' →
      GoodS c angles s → GoodS c angles s' ∧ s.maxArea ≤ s'.maxArea := by
  intro rs
  induction rs with
  | nil =>
      intro s s' h hgood
      rw [processARatios] at h
      cases h
      exact ⟨hgood, le_refl _⟩
  | cons aRatio rest ih =>
      intro s s' h hgood
      rw [processARatios] at h
      split at h
      · exact absurd h (by simp)
      case h_2 s1 heq =>
        obtain ⟨hg1, hm1⟩ := processARatio_good c ev angleRad angle origin mw mh fuel aRatio
          angles s s1 hrad hang hws hmh heq hgood
        obtain ⟨hg2, hm2⟩ := ih s1 s' h hg1
        exact ⟨hg2, le_trans hm1 hm2⟩

lemma maxWidthAt_nonneg {poly : Polygon} {origin : Point} {angleRad m : ℝ}
    (h : maxWidthAt poly origin angleRad = some m) : 0 ≤ m := by
  rw [maxWidthAt] at h
  split at h
  · simp only [Option.some.injEq] at h
    subst h
    positivity
  · exact absurd h (by simp)

lemma maxHeightAt_nonneg {poly : Polygon} {origin : Point} {angleRad m : ℝ}
    (h : maxHeightAt poly origin angleRad = some m) : 0 ≤ m :=
  maxWidthAt_nonneg h

lemma processModifOrigin_good (c : SearchCtx) (ev : Bool) (angleRad angle : ℝ)
    (fuel : ℕ) (origin : Point) (angles : List ℝ) (s s' : SState)
    (hrad : angleRad = -angle * Real.pi / 180) (hang : angle ∈ angles)
    (hws : 0 ≤ c.widthStep)
    (h : processModifOrigin c ev angleRad angle fuel origin s = some s')
    (hgood : GoodS c angles s) :
    GoodS c angles s' ∧ s.maxArea ≤ s'.maxArea := by
  rw [processModifOrigin] at h
  dsimp only at h
  split at h
  case h_1 =>
    cases h
    exact ⟨goodS_pushEv.mpr hgood, by simp⟩
  case h_2 mw hmw =>
    split at h
    case h_1 =>
      cases h
      exact ⟨goodS_pushEv.mpr hgood, by simp⟩
    case h_2 mh hmh =>
      split at h
      case isTrue =>
        cases h
        exact ⟨goodS_pushEv.mpr hgood, by simp⟩
      case isFalse =>
        have := processARatios_good c ev angleRad angle origin mw mh fuel angles hrad hang hws
          (maxHeightAt_nonneg hmh) _ _ _ h (goodS_pushEv.mpr hgood)
        simpa only [pushEv_maxArea] using this

lemma processModifOrigins_good (c : SearchCtx) (ev : Bool) (angleRad angle : ℝ)
    (fuel : ℕ) (angles : List ℝ)
    (hrad : angleRad = -angle * Real.pi / 180) (hang : angle ∈ angles)
    (hws : 0 ≤ c.widthStep) :
    ∀ os s s', processModifOrigins c ev angleRad angle fuel os s = some s' →
      GoodS c angles s → GoodS c angles s' ∧ s.maxArea ≤ s'.maxArea := by
  intro os
  induction os with
  | nil =>
      intro s s' h hgood
      rw [processModifOrigins] at h
      cases h
      exact ⟨hgood, le_refl _⟩
  | cons origin rest ih =>
      intro s s' h hgood
      rw [processModifOrigins] at h
      split at h
      · exact absurd h (by simp)
      case h_2 s1 heq =>
        obtain ⟨hg1, hm1⟩ := processModifOrigin_good c ev angleRad angle fuel origin
          angles s s1 hrad hang hws heq hgood
        obtain ⟨hg2, hm2⟩ := ih s1 s' h hg1
        exact ⟨hg2, le_trans hm1 hm2⟩

lemma processOrigin_good (c : SearchCtx) (ev : Bool) (angleRad angle : ℝ)
    (fuel idx : ℕ) (origOrigin : Point) (angles : List ℝ) (s s' : SState)
    (hrad : angleRad = -angle * Real.pi / 180) (hang : angle ∈ angles)
    (hws : 0 ≤ c.widthStep)
    (h : processOrigin c ev angleRad angle fuel idx origOrigin s = some s')
    (hgood : GoodS c angles s) :
    GoodS c angles s' ∧ s.maxArea ≤ s'.maxArea := by
  rw [processOrigin] at h
  have := processModifOrigins_good c ev angleRad angle fuel angles hrad hang hws
    _ _ _ h (goodS_pushEv.mpr hgood)
  simpa only [pushEv_maxArea] using this

lemma processOrigins_good (c : SearchCtx) (ev : Bool) (angleRad angle : ℝ)
    (fuel : ℕ) (angles : List ℝ)
    (hrad : angleRad = -angle * Real.pi / 180) (hang : angle ∈ angles)
    (hws : 0 ≤ c.widthStep) :
    ∀ os idx s s', processOrigins c ev angleRad angle fuel os idx s = some s' →
      GoodS c angles s → GoodS c angles s' ∧ s.maxArea ≤ s'.maxArea := by
  intro os
  induction os with
  | nil =>
      intro idx s s' h hgood
      rw [processOrigins] at h
      cases h
      exact ⟨hgood, le_refl _⟩
  | cons origin rest ih =>
      intro idx s s' h hgood
      rw [processOrigins] at h
      split at h
      · exact absurd h (by simp)
      case h_2 s1 heq =>
        obtain ⟨hg1, hm1⟩ := processOrigin_good c ev angleRad angle fuel idx origin
          angles s s1 hrad hang hws heq hgood
        obtain ⟨hg2, hm2⟩ := ih (idx + 1) s1 s' h hg1
        exact ⟨hg2, le_trans hm1 hm2⟩

lemma processAngle_good (c : SearchCtx) (ev : Bool) (origins : List Point)
    (fuel : ℕ) (angle : ℝ) (angles : List ℝ) (s s' : SState)
    (hang : angle ∈ angles) (hws : 0 ≤ c.widthStep)
    (h : processAngle c ev origins fuel angle s = some s')
    (hgood : GoodS c angles s) :
    GoodS c angles s' ∧ s.maxArea ≤ s'.maxArea := by
  rw [processAngle] at h
  have := processOrigins_good c ev (-angle * Real.pi / 180) angle fuel angles rfl hang hws
    _ _ _ _ h (goodS_pushEv.mpr hgood)
  simpa only [pushEv_maxArea] using this

lemma processAngles_good (c : SearchCtx) (ev : Bool) (origins : List Point)
    (fuel : ℕ) (angles : List ℝ) (hws : 0 ≤ c.widthStep) :
    ∀ as, (∀ a ∈ as, a ∈ angles) →
    ∀ s s', processAngles c ev origins fuel as s = some s' →
      GoodS c angles s → GoodS c angles s' ∧ s.maxArea ≤ s'.maxArea := by
  intro as
  induction as with
  | nil =>
      intro _ s s' h hgood
      rw [processAngles] at h
      cases h
      exact ⟨hgood, le_refl _⟩
  | cons angle rest ih =>
      intro hsub s s' h hgood
      rw [processAngles] at h
      split at h
      · exact absurd h (by simp)
      case h_2 s1 heq =>
        obtain ⟨hg1, hm1⟩ := processAngle_good c ev origins fuel angle angles s s1
          (hsub angle (by simp)) hws heq hgood
        obtain ⟨hg2, hm2⟩ := ih (fun a ha => hsub a (by simp [ha])) s1 s' h hg1
        exact ⟨hg2, le_trans hm1 hm2⟩

end D3Rect

namespace D3Rect

lemma foldl_min_le_foldl_max : ∀ (xs : List ℝ) (x y : ℝ), x ≤ y →
    xs.foldl min x ≤ xs.foldl max y := by
  intro xs
  induction xs with
  | nil => intro x y h; exact h
  | cons z zs ih =>
      intro x y h
      exact ih _ _ (le_trans (min_le_left x z) (le_trans h (le_max_left y z)))

lemma minList_le_maxList (xs : List ℝ) : minList xs ≤ maxList xs := by
  cases xs with
  | nil => exact le_refl 0
  | cons x xs => exact foldl_min_le_foldl_max xs x x (le_refl x)

lemma ctxOf_widthStep_nonneg (poly : Polygon) (opts : Options) :
    0 ≤ (ctxOf poly opts).widthStep := by
  have h1 := minList_le_maxList ((simplifiedPoly poly opts.tolerance).map Prod.fst)
  have h2 := minList_le_maxList ((simplifiedPoly poly opts.tolerance).map Prod.snd)
  have : (0:ℝ) ≤ min (maxList ((simplifiedPoly poly opts.tolerance).map Prod.fst) -
           minList ((simplifiedPoly poly opts.tolerance).map Prod.fst))
          (maxList ((simplifiedPoly poly opts.tolerance).map Prod.snd) -
           minList ((simplifiedPoly poly opts.tolerance).map Prod.snd)) :=
    le_min (by linarith) (by linarith)
  unfold ctxOf
  dsimp only
  linarith

lemma largestRect_result_good (poly : Polygon) (opts : Options) (rng : ℕ → ℝ)
    (fuel : ℕ) (rv : RetVal) (r : Rect)
    (h : largestRect poly opts rng fuel = some rv) (hr : rectOf rv = some r) :
    GoodRect (ctxOf poly opts) (numListOf opts.angle) r := by
  rw [largestRect] at h
  split at h
  · cases h; exact absurd hr (by simp [rectOf])
  · dsimp only at h
    split at h
    · cases h; exact absurd hr (by simp [rectOf])
    · split at h
      · exact absurd h (by simp)
      case h_2 origins horig =>
        split at h
        · exact absurd h (by simp)
        case h_2 s hPA =>
          have hgood := processAngles_good (ctxOf poly opts) opts.events origins fuel
            (numListOf opts.angle) (ctxOf_widthStep_nonneg poly opts)
            (numListOf opts.angle) (fun a ha => ha) _ _ hPA
            ⟨le_refl 0, fun rr hrr => by simp at hrr⟩
          cases h
          revert hr
          split
          · intro hr
            simp only [rectOf] at hr
            exact hgood.1.2 r hr
          · intro hr
            split at hr
            · exact absurd hr (by simp [rectOf])
            case h_2 r' hr' =>
              simp only [rectOf, Option.some.injEq] at hr
              subst hr
              exact hgood.1.2 r' hr'

end D3Rect

namespace D3Rect

lemma core_eq_iff {s1 s2 : SState} :
    s1.core = s2.core ↔ s1.maxArea = s2.maxArea ∧ s1.maxRect = s2.maxRect := by
  unfold SState.core
  constructor
  · intro h
    exact ⟨congrArg Prod.fst h, congrArg Prod.snd h⟩
  · intro ⟨h1, h2⟩
    rw [h1, h2]

lemma bsearch_rel (c : SearchCtx) (ev1 ev2 : Bool) (angleRad angle : ℝ) (origin : Point)
    (aRatio : ℝ) :
    ∀ fuel l r s1 s2, s1.core = s2.core →
      (bsearch c ev1 angleRad angle origin aRatio fuel l r s1).map SState.core =
      (bsearch c ev2 angleRad angle origin aRatio fuel l r s2).map SState.core := by
  intro fuel
  induction fuel with
  | zero =>
      intro l r s1 s2 h
      rw [bsearch, bsearch]
      split
      · rfl
      · simpa using h
  | succ fuel ih =>
      intro l r s1 s2 h
      rw [bsearch, bsearch]
      dsimp only
      split
      case isFalse => simpa using h
      case isTrue hg =>
        split
        case isTrue hin =>
          apply ih
          rw [core_eq_iff]
          constructor <;> simp
        case isFalse hin =>
          apply ih
          rw [core_eq_iff]
          obtain ⟨h1, h2⟩ := core_eq_iff.mp h
          constructor <;> simp [h1, h2]

lemma processARatio_rel (c : SearchCtx) (ev1 ev2 : Bool) (angleRad angle : ℝ)
    (origin : Point) (mw mh : ℝ) (fuel : ℕ) (aRatio : ℝ) (s1 s2 : SState)
    (h : s1.core = s2.core) :
    (processARatio c ev1 angleRad angle origin mw mh fuel aRatio s1).map SState.core =
    (processARatio c ev2 angleRad angle origin mw mh fuel aRatio s2).map SState.core := by
  obtain ⟨h1, h2⟩ := core_eq_iff.mp h
  rw [processARatio, processARatio]
  dsimp only
  rw [h1]
  split
  case isTrue => simpa using h
  case isFalse =>
    apply bsearch_rel
    rw [core_eq_iff]
    constructor
    · split <;> split <;> simp [h1]
    · split <;> split <;> simp [h2]

lemma processARatios_rel (c : SearchCtx) (ev1 ev2 : Bool) (angleRad angle : ℝ)
    (origin : Point) (mw mh : ℝ) (fuel : ℕ) :
    ∀ rs s1 s2, s1.core = s2.core →
      (processARatios c ev1 angleRad angle origin mw mh fuel rs s1).map SState.core =
      (processARatios c ev2 angleRad angle origin mw mh fuel rs s2).map SState.core := by
  intro rs
  induction rs with
  | nil =>
      intro s1 s2 h
      rw [processARatios, processARatios]
      simpa using h
  | cons aRatio rest ih =>
      intro s1 s2 h
      rw [processARatios, processARatios]
      have hr := processARatio_rel c ev1 ev2 angleRad angle origin mw mh fuel aRatio s1 s2 h
      cases hx1 : processARatio c ev1 angleRad angle origin mw mh fuel aRatio s1 with
      | none =>
          rw [hx1] at hr
          cases hx2 : processARatio c ev2 angleRad angle origin mw mh fuel aRatio s2 with
          | none => rfl
          | some t2 => rw [hx2] at hr; simp at hr
      | some t1 =>
          rw [hx1] at hr
          cases hx2 : processARatio c ev2 angleRad angle origin mw mh fuel aRatio s2 with
          | none => rw [hx2] at hr; simp at hr
          | some t2 =>
              rw [hx2] at hr
              simp at hr
              exact ih t1 t2 (by simpa using hr)

lemma processModifOrigin_rel (c : SearchCtx) (ev1 ev2 : Bool) (angleRad angle : ℝ)
    (fuel : ℕ) (origin : Point) (s1 s2 : SState) (h : s1.core = s2.core) :
    (processModifOrigin c ev1 angleRad angle fuel origin s1).map SState.core =
    (processModifOrigin c ev2 angleRad angle fuel origin s2).map SState.core := by
  obtain ⟨h1, h2⟩ := core_eq_iff.mp h
  rw [processModifOrigin, processModifOrigin]
  dsimp only
  split
  case h_1 => simpa using h
  case h_2 mw hmw =>
    split
    case h_1 => simpa using h
    case h_2 mh hmh =>
      simp only [pushEv_maxArea, h1]
      split
      case isTrue => simpa using h
      case isFalse =>
        apply processARatios_rel
        simpa using h

lemma processModifOrigins_rel (c : SearchCtx) (ev1 ev2 : Bool) (angleRad angle : ℝ)
    (fuel : ℕ) :
    ∀ os s1 s2, s1.core = s2.core →
      (processModifOrigins c ev1 angleRad angle fuel os s1).map SState.core =
      (processModifOrigins c ev2 angleRad angle fuel os s2).map SState.core := by
  intro os
  induction os with
  | nil =>
      intro s1 s2 h
      rw [processModifOrigins, processModifOrigins]
      simpa using h
  | cons origin rest ih =>
      intro s1 s2 h
      rw [processModifOrigins, processModifOrigins]
      have hr := processModifOrigin_rel c ev1 ev2 angleRad angle fuel origin s1 s2 h
      cases hx1 : processModifOrigin c ev1 angleRad angle fuel origin s1 with
      | none =>
          rw [hx1] at hr
          cases hx2 : processModifOrigin c ev2 angleRad angle fuel origin s2 with
          | none => rfl
          | some t2 => rw [hx2] at hr; simp at hr
      | some t1 =>
          rw [hx1] at hr
          cases hx2 : processModifOrigin c ev2 angleRad angle fuel origin s2 with
          | none => rw [hx2] at hr; simp at hr
          | some t2 =>
              rw [hx2] at hr
              simp at hr
              exact ih t1 t2 (by simpa using hr)

lemma processOrigin_rel (c : SearchCtx) (ev1 ev2 : Bool) (angleRad angle : ℝ)
    (fuel idx1 idx2 : ℕ) (origOrigin : Point) (s1 s2 : SState) (h : s1.core = s2.core) :
    (processOrigin c ev1 angleRad angle fuel idx1 origOrigin s1).map SState.core =
    (processOrigin c ev2 angleRad angle fuel idx2 origOrigin s2).map SState.core := by
  rw [processOrigin, processOrigin]
  apply processModifOrigins_rel
  simpa using h

lemma processOrigins_rel (c : SearchCtx) (ev1 ev2 : Bool) (angleRad angle : ℝ)
    (fuel : ℕ) :
    ∀ os idx1 idx2 s1 s2, s1.core = s2.core →
      (processOrigins c ev1 angleRad angle fuel os idx1 s1).map SState.core =
      (processOrigins c ev2 angleRad angle fuel os idx2 s2).map SState.core := by
  intro os
  induction os with
  | nil =>
      intro idx1 idx2 s1 s2 h
      rw [processOrigins, processOrigins]
      simpa using h
  | cons origin rest ih =>
      intro idx1 idx2 s1 s2 h
      rw [processOrigins, processOrigins]
      have hr := processOrigin_rel c ev1 ev2 angleRad angle fuel idx1 idx2 origin s1 s2 h
      cases hx1 : processOrigin c ev1 angleRad angle fuel idx1 origin s1 with
      | none =>
          rw [hx1] at hr
          cases hx2 : processOrigin c ev2 angleRad angle fuel idx2 origin s2 with
          | none => rfl
          | some t2 => rw [hx2] at hr; simp at hr
      | some t1 =>
          rw [hx1] at hr
          cases hx2 : processOrigin c ev2 angleRad angle fuel idx2 origin s2 with
          | none => rw [hx2] at hr; simp at hr
          | some t2 =>
              rw [hx2] at hr
              simp at hr
              exact ih (idx1 + 1) (idx2 + 1) t1 t2 (by simpa using hr)

lemma processAngle_rel (c : SearchCtx) (ev1 ev2 : Bool) (origins : List Point)
    (fuel : ℕ) (angle : ℝ) (s1 s2 : SState) (h : s1.core = s2.core) :
    (processAngle c ev1 origins fuel angle s1).map SState.core =
    (processAngle c ev2 origins fuel angle s2).map SState.core := by
  rw [processAngle, processAngle]
  apply processOrigins_rel
  simpa using h

lemma processAngles_rel (c : SearchCtx) (ev1 ev2 : Bool) (origins : List Point)
    (fuel : ℕ) :
    ∀ as s1 s2, s1.core = s2.core →
      (processAngles c ev1 origins fuel as s1).map SState.core =
      (processAngles c ev2 origins fuel as s2).map SState.core := by
  intro as
  induction as with
  | nil =>
      intro s1 s2 h
      rw [processAngles, processAngles]
      simpa using h
  | cons angle rest ih =>
      intro s1 s2 h
      rw [processAngles, processAngles]
      have hr := processAngle_rel c ev1 ev2 origins fuel angle s1 s2 h
      cases hx1 : processAngle c ev1 origins fuel angle s1 with
      | none =>
          rw [hx1] at hr
          cases hx2 : processAngle c ev2 origins fuel angle s2 with
          | none => rfl
          | some t2 => rw [hx2] at hr; simp at hr
      | some t1 =>
          rw [hx1] at hr
          cases hx2 : processAngle c ev2 origins fuel angle s2 with
          | none => rw [hx2] at hr; simp at hr
          | some t2 =>
              rw [hx2] at hr
              simp at hr
              exact ih t1 t2 (by simpa using hr)

end D3Rect

namespace D3Rect

@[simp] lemma c4c_poly : c4c.poly = sqPoly := rfl
@[simp] lemma c4c_area : c4c.area = 1 := rfl
@[simp] lemma c4c_widthStep : c4c.widthStep = 1/50 := rfl
@[simp] lemma c4c_minWidth : c4c.minWidth = 97/100 := rfl
@[simp] lemma c4c_minHeight : c4c.minHeight = 9/10 := rfl
@[simp] lemma c4c_minAspectRatio : c4c.minAspectRatio = 1 := rfl
@[simp] lemma c4c_maxAspectRatio : c4c.maxAspectRatio = 15 := rfl
@[simp] lemma c4c_aspectRatios : c4c.aspectRatios = [4] := rfl

lemma sqrt_four : Real.sqrt (4:ℝ) = 2 := by
  rw [show (4:ℝ) = 2^2 by norm_num, Real.sqrt_sq (by norm_num)]

lemma sqrt_38809 : Real.sqrt (38809:ℝ) = 197 := by
  rw [show (38809:ℝ) = 197^2 by norm_num, Real.sqrt_sq (by norm_num)]

lemma sqrt_40000 : Real.sqrt (40000:ℝ) = 200 := by
  rw [show (40000:ℝ) = 200^2 by norm_num, Real.sqrt_sq (by norm_num)]

set_option maxHeartbeats 2000000 in
lemma hrayW : rayIntersectsPoly sqPoly (1/2, 1/2) 0 = (some (1, 1/2), some (0, 1/2)) := by
  norm_num [rayIntersectsPoly, sqPoly, edges, edgesAux, edgeHit, cross,
    List.filterMap, List.foldl]

set_option maxHeartbeats 2000000 in
lemma hrayH : rayIntersectsPoly sqPoly (1/2, 1/2) (Real.pi / 2) =
    (some (1/2, 1), some (1/2, 0)) := by
  norm_num [rayIntersectsPoly, sqPoly, edges, edgesAux, edgeHit, cross,
    List.filterMap, List.foldl, Real.cos_pi_div_two, Real.sin_pi_div_two]

set_option maxHeartbeats 2000000 in
lemma hbs1 : bsearch c4c false 0 0 (1/2, 1/2) 4 2 (97/100) 1 ⟨0, none, []⟩ =
    some ⟨38809/160000, some r4, []⟩ := by
  norm_num [bsearch, r4, pushEv, rotatePoly, rotatePoint, rectPts, sqPoly,
    polyInPoly, pointInPoly, properIntersect, orient, edges, edgesAux, cross,
    List.foldl, List.all]

set_option maxHeartbeats 2000000 in
lemma hmw : maxWidthAt sqPoly (1/2, 1/2) 0 = some 1 := by
  rw [maxWidthAt, hrayW]
  norm_num [squaredDistance, sqrt_four]

set_option maxHeartbeats 2000000 in
lemma hmh : maxHeightAt sqPoly (1/2, 1/2) 0 = some 1 := by
  rw [maxHeightAt, maxWidthAt, zero_add, hrayH]
  norm_num [squaredDistance, sqrt_four]

set_option maxHeartbeats 2000000 in
lemma hmo1 : processModifOrigin c4c false 0 0 2 (1/2, 1/2) ⟨0, none, []⟩ =
    some ⟨38809/160000, some r4, []⟩ := by
  rw [processModifOrigin]
  norm_num [pushEv, hmw, hmh, processARatios, processARatio, Real.sqrt_zero,
    max_def, min_def, hbs1]

set_option maxHeartbeats 2000000 in
lemma hmo2 : processModifOrigin c4c false 0 0 2 (1/2, 1/2) ⟨38809/160000, some r4, []⟩ =
    some ⟨38809/160000, some r4, []⟩ := by
  rw [processModifOrigin]
  norm_num [pushEv, hmw, hmh, processARatios, processARatio, sqrt_38809, sqrt_40000,
    max_def, min_def, bsearch]

set_option maxHeartbeats 2000000 in
lemma hpo1 : processOrigin c4c false 0 0 2 0 (1/2, 1/2) ⟨0, none, []⟩ =
    some ⟨38809/160000, some r4, []⟩ := by
  rw [processOrigin]
  norm_num [hrayW, hrayH, pushEv, processModifOrigins, hmo1, hmo2]

set_option maxHeartbeats 2000000 in
lemma hpa1 : processAngles c4c false [(1/2, 1/2)] 2 [0] ⟨0, none, []⟩ =
    some ⟨38809/160000, some r4, []⟩ := by
  rw [processAngles, processAngle]
  norm_num [pushEv, processOrigins, processAngles, hpo1]

lemma hA4 : polygonArea sqPoly = -1 := by
  norm_num [polygonArea, edges, edgesAux, sqPoly, List.foldl]

lemma hLen4 : sqPoly.length = 4 := by norm_num [sqPoly]

lemma hMinx : minList (sqPoly.map Prod.fst) = 0 := by
  norm_num [sqPoly, minList, List.map, List.foldl, min_def]

lemma hMaxx : maxList (sqPoly.map Prod.fst) = 1 := by
  norm_num [sqPoly, maxList, List.map, List.foldl, max_def]

lemma hMiny : minList (sqPoly.map Prod.snd) = 0 := by
  norm_num [sqPoly, minList, List.map, List.foldl, min_def]

lemma hMaxy : maxList (sqPoly.map Prod.snd) = 1 := by
  norm_num [sqPoly, maxList, List.map, List.foldl, max_def]

lemma hSimp4 : simplifiedPoly sqPoly 0 = sqPoly := by
  rw [simplifiedPoly]
  norm_num [hMinx, hMaxx, hMiny, hMaxy]

@[simp] lemma c4opts_angle : c4opts.angle = .num 0 := rfl
@[simp] lemma c4opts_aspectRatio : c4opts.aspectRatio = .num 4 := rfl
@[simp] lemma c4opts_tolerance : c4opts.tolerance = 0 := rfl
@[simp] lemma c4opts_origin : c4opts.origin = .pt (1/2, 1/2) := rfl
@[simp] lemma c4opts_events : c4opts.events = false := rfl
@[simp] lemma c4opts_minWidth : c4opts.minWidth = 97/100 := rfl
@[simp] lemma c4opts_minAspectRatio : c4opts.minAspectRatio = 1 := rfl
@[simp] lemma c4opts_maxAspectRatio : c4opts.maxAspectRatio = 15 := rfl
@[simp] lemma c4opts_nTries : c4opts.nTries = 20 := rfl
@[simp] lemma c4opts_minHeight : c4opts.minHeight = 9/10 := rfl

lemma hc4ctx : ctxOf sqPoly c4opts = c4c := by
  rw [ctxOf, c4c]
  norm_num [hSimp4, hA4, hMinx, hMaxx, hMiny, hMaxy, numListOf, min_def]

set_option maxHeartbeats 2000000 in
lemma c4_run : largestRect sqPoly c4opts (fun _ => 0) 2 = some (.rect r4) := by
  rw [largestRect]
  norm_num [numListOf, originsOf, hA4, hLen4, hSimp4, hMinx, hMaxx, hMiny, hMaxy,
    min_def, hc4ctx, hpa1]

end D3Rect

namespace D3Rect

lemma ctxOf_events_upd (poly : Polygon) (opts : Options) (b : Bool) :
    ctxOf poly { opts with events := b } = ctxOf poly opts := rfl

lemma final_match_rel (c : SearchCtx) (origins : List Point) (fuel : ℕ) (as : List ℝ)
    (E1 E2 : List Event) :
    Option.map rectOf
      (match processAngles c true origins fuel as ⟨0, none, E1⟩ with
       | none => none
       | some s => some (RetVal.withEvents s.maxRect s.events)) =
    Option.map rectOf
      (match processAngles c false origins fuel as ⟨0, none, E2⟩ with
       | none => none
       | some s => some (match s.maxRect with
                         | none => RetVal.null
                         | some r => RetVal.rect r)) := by
  have hrel := processAngles_rel c true false origins fuel as ⟨0, none, E1⟩ ⟨0, none, E2⟩ rfl
  cases hx1 : processAngles c true origins fuel as ⟨0, none, E1⟩ with
  | none =>
      rw [hx1] at hrel
      cases hx2 : processAngles c false origins fuel as ⟨0, none, E2⟩ with
      | none => rfl
      | some t2 => rw [hx2] at hrel; simp at hrel
  | some t1 =>
      rw [hx1] at hrel
      cases hx2 : processAngles c false origins fuel as ⟨0, none, E2⟩ with
      | none => rw [hx2] at hrel; simp at hrel
      | some t2 =>
          rw [hx2] at hrel
          simp at hrel
          obtain ⟨-, hrect⟩ := core_eq_iff.mp hrel
          simp only [Option.map_some', rectOf, hrect]
          cases t2.maxRect <;> rfl

lemma largestRect_events_rel (poly : Polygon) (opts : Options) (rng : ℕ → ℝ) (fuel : ℕ) :
    (largestRect poly { opts with events := true } rng fuel).map rectOf =
    (largestRect poly { opts with events := false } rng fuel).map rectOf := by
  rw [largestRect, largestRect]
  dsimp only
  by_cases hlen : poly.length < 3
  · rw [if_pos hlen, if_pos hlen]
  · rw [if_neg hlen, if_neg hlen]
    by_cases harea : |polygonArea poly| = 0
    · rw [if_pos harea, if_pos harea]
    · rw [if_neg harea, if_neg harea]
      cases hsam : (if (originsOf opts.origin).isEmpty = true then
          sampleLoop (simplifiedPoly poly opts.tolerance)
            (maxList ((simplifiedPoly poly opts.tolerance).map Prod.fst) -
              minList ((simplifiedPoly poly opts.tolerance).map Prod.fst))
            (maxList ((simplifiedPoly poly opts.tolerance).map Prod.snd) -
              minList ((simplifiedPoly poly opts.tolerance).map Prod.snd))
            (minList ((simplifiedPoly poly opts.tolerance).map Prod.fst))
            (minList ((simplifiedPoly poly opts.tolerance).map Prod.snd))
            opts.nTries rng fuel 0
            (if pointInPoly (polygonCentroid (simplifiedPoly poly opts.tolerance))
                (simplifiedPoly poly opts.tolerance) = true
             then [polygonCentroid (simplifiedPoly poly opts.tolerance)] else [])
        else some (originsOf opts.origin)) with
      | none => rfl
      | some origins =>
          exact final_match_rel (ctxOf poly opts) origins fuel (numListOf opts.angle) _ _

end D3Rect

namespace D3Rect

lemma largestRect_rng_irrelevant (poly : Polygon) (opts : Options) (rng1 rng2 : ℕ → ℝ)
    (fuel : ℕ) (hne : originsOf opts.origin ≠ []) :
    largestRect poly opts rng1 fuel = largestRect poly opts rng2 fuel := by
  have he : (originsOf opts.origin).isEmpty = false := by
    cases hx : originsOf opts.origin with
    | nil => exact absurd hx hne
    | cons p ps => rfl
  rw [largestRect, largestRect]
  dsimp only
  simp only [he, Bool.false_eq_true, if_false]

lemma largestRect_short (poly : Polygon) (opts : Options) (rng : ℕ → ℝ) (fuel : ℕ)
    (h : poly.length < 3) : largestRect poly opts rng fuel = some RetVal.null := by
  rw [largestRect, if_pos h]

lemma largestRect_zero_area (poly : Polygon) (opts : Options) (rng : ℕ → ℝ) (fuel : ℕ)
    (h : |polygonArea poly| = 0) : largestRect poly opts rng fuel = some RetVal.null := by
  rw [largestRect]
  by_cases hlen : poly.length < 3
  · rw [if_pos hlen]
  · rw [if_neg hlen]
    dsimp only
    rw [if_pos h]

lemma largestRect_empty_angles (poly : Polygon) (opts : Options) (rng : ℕ → ℝ)
    (fuel : ℕ) (rv : RetVal) (hang : numListOf opts.angle = [])
    (h : largestRect poly opts rng fuel = some rv) :
    rectOf rv = none ∧ (opts.events = false → rv = RetVal.null) := by
  rw [largestRect] at h
  split at h
  · cases h; exact ⟨rfl, fun _ => rfl⟩
  · dsimp only at h
    split at h
    · cases h; exact ⟨rfl, fun _ => rfl⟩
    · split at h
      · exact absurd h (by simp)
      case h_2 origins horig =>
        rw [hang, processAngles] at h
        simp only [Option.some.injEq] at h
        subst h
        cases hev : opts.events with
        | true => exact ⟨rfl, fun hf => by simp at hf⟩
        | false => exact ⟨rfl, fun _ => rfl⟩

lemma foldl_toggle_aux {α : Type} (g : Bool → α → Bool)
    (hg : ∀ acc e, g acc e = xor acc (g false e)) :
    ∀ (L : List α) (acc : Bool), L.foldl g acc = xor acc (L.foldl g false) := by
  intro L
  induction L with
  | nil => intro acc; simp
  | cons e L ih =>
      intro acc
      simp only [List.foldl_cons]
      rw [ih (g acc e), ih (g false e), hg acc e, Bool.xor_assoc]

lemma foldl_toggle_dup {α : Type} (g : Bool → α → Bool)
    (hg : ∀ acc e, g acc e = xor acc (g false e)) (L : List α) (acc : Bool) :
    (L ++ L).foldl g acc = acc := by
  rw [List.foldl_append, foldl_toggle_aux g hg, foldl_toggle_aux g hg L acc,
    Bool.xor_assoc, Bool.xor_self, Bool.xor_false]

lemma edges_dblSquare :
    edges dblSquare =
      [(((0:ℝ), (0:ℝ)), ((4:ℝ), (0:ℝ))), ((4, 0), (4, 4)), ((4, 4), (0, 4)), ((0, 4), (0, 0))] ++
      [(((0:ℝ), (0:ℝ)), ((4:ℝ), (0:ℝ))), ((4, 0), (4, 4)), ((4, 4), (0, 4)), ((0, 4), (0, 0))] := by
  rfl

lemma pointInPoly_dblSquare (p : Point) : pointInPoly p dblSquare = false := by
  rw [pointInPoly, edges_dblSquare]
  apply foldl_toggle_dup
  intro acc e
  dsimp only
  split <;> (cases acc <;> rfl)

lemma sampleLoop_starved (poly : Polygon) (hpoly : ∀ p, pointInPoly p poly = false)
    (boxW boxH minx miny : ℝ) (n : ℕ) (hn : 0 < n) (rng : ℕ → ℝ) :
    ∀ fuel k, sampleLoop poly boxW boxH minx miny n rng fuel k [] = none := by
  intro fuel
  induction fuel with
  | zero =>
      intro k
      rw [sampleLoop]
      rw [if_neg (by simp; omega)]
  | succ fuel ih =>
      intro k
      rw [sampleLoop]
      rw [if_neg (by simp; omega)]
      dsimp only
      rw [hpoly, if_neg (by simp)]
      exact ih (k + 1)

lemma hAdbl : polygonArea dblSquare = -32 := by
  norm_num [polygonArea, edges, edgesAux, dblSquare, List.foldl]

lemma hdbl_minx : minList (dblSquare.map Prod.fst) = 0 := by
  norm_num [dblSquare, minList, List.map, List.foldl, min_def]

lemma hdbl_maxx : maxList (dblSquare.map Prod.fst) = 4 := by
  norm_num [dblSquare, maxList, List.map, List.foldl, max_def]

lemma hdbl_miny : minList (dblSquare.map Prod.snd) = 0 := by
  norm_num [dblSquare, minList, List.map, List.foldl, min_def]

lemma hdbl_maxy : maxList (dblSquare.map Prod.snd) = 4 := by
  norm_num [dblSquare, maxList, List.map, List.foldl, max_def]

lemma hSimp_dbl : simplifiedPoly dblSquare 0 = dblSquare := by
  rw [simplifiedPoly]
  norm_num [hdbl_minx, hdbl_maxx, hdbl_miny, hdbl_maxy]

@[simp] lemma c5opts_tolerance : c5opts.tolerance = 0 := rfl
@[simp] lemma c5opts_origin_eq : originsOf c5opts.origin = [] := rfl
@[simp] lemma c5opts_nTries : c5opts.nTries = 20 := rfl

lemma largestRect_dblSquare_diverges (rng : ℕ → ℝ) (fuel : ℕ) :
    largestRect dblSquare c5opts rng fuel = none := by
  rw [largestRect]
  rw [if_neg (by norm_num [dblSquare])]
  dsimp only
  rw [if_neg (by rw [hAdbl]; norm_num)]
  simp only [c5opts_tolerance, c5opts_origin_eq, c5opts_nTries, hSimp_dbl,
    List.isEmpty_nil, if_true, pointInPoly_dblSquare, Bool.false_eq_true, if_false]
  rw [sampleLoop_starved dblSquare pointInPoly_dblSquare _ _ _ _ 20 (by norm_num) rng fuel 0]

lemma processModifOrigin_prune (c : SearchCtx) (ev : Bool) (angleRad angle : ℝ)
    (fuel : ℕ) (origin : Point) (s : SState) (mw mh : ℝ)
    (hmw : maxWidthAt c.poly origin angleRad = some mw)
    (hmh : maxHeightAt c.poly origin angleRad = some mh)
    (hlt : mw * mh < s.maxArea) :
    processModifOrigin c ev angleRad angle fuel origin s =
      some (pushEv ev s (.origin origin.1 origin.2)) := by
  rw [processModifOrigin]
  dsimp only
  simp only [hmw, hmh]
  rw [if_pos (by simpa only [pushEv_maxArea] using hlt)]

lemma maxWidthAt_eq (poly : Polygon) (origin : Point) (angleRad : ℝ) (p1 p2 : Point)
    (h : rayIntersectsPoly poly origin angleRad = (some p1, some p2)) :
    maxWidthAt poly origin angleRad =
      some (2 * Real.sqrt (min (squaredDistance origin p1) (squaredDistance origin p2))) := by
  rw [maxWidthAt, h]

end D3Rect

namespace D3Rect

@[simp] lemma ctxOf_poly (poly : Polygon) (opts : Options) :
    (ctxOf poly opts).poly = simplifiedPoly poly opts.tolerance := rfl

@[simp] lemma ctxOf_minWidth (poly : Polygon) (opts : Options) :
    (ctxOf poly opts).minWidth = opts.minWidth := rfl

lemma polyInPoly_spec {inner outer : Polygon} (h : polyInPoly inner outer = true) :
    (inner.all fun q => pointInPoly q outer) = true ∧
    ∀ ei ∈ edges inner, ∀ eo ∈ edges outer, properIntersect ei.1 ei.2 eo.1 eo.2 = false := by
  rw [polyInPoly, Bool.and_eq_true] at h
  refine ⟨h.1, ?_⟩
  intro ei hei eo heo
  have h2 := h.2
  rw [List.all_eq_true] at h2
  have h3 := h2 ei hei
  rw [List.all_eq_true] at h3
  have h4 := h3 eo heo
  simpa using h4

lemma resultGood_of_run {poly : Polygon} {opts : Options} {rng : ℕ → ℝ} {fuel : ℕ}
    {rv : RetVal} {r : Rect} (h : largestRect poly opts rng fuel = some rv)
    (hr : rectOf rv = some r) :
    ContainmentOK poly opts r ∧ ShapeOK opts r ∧ opts.minWidth ≤ r.width := by
  obtain ⟨h1, h2, h3, h4, h5, h6, h7⟩ := largestRect_result_good poly opts rng fuel rv r h hr
  rw [ctxOf_poly] at h1
  rw [ctxOf_minWidth] at h3
  obtain ⟨ha, hb⟩ := polyInPoly_spec h1
  exact ⟨⟨h1, ha, hb⟩, ⟨h2, h4, h6, h7, h5⟩, h3⟩

/-- C1.  Containment invariant: whenever `largestRect` returns a candidate
(with or without diagnostic events), the candidate's rotated corner polygon
(its recorded points without the closing point) passed the `polyInPoly`
containment test against the simplified input polygon when it was recorded;
under the modelled containment contract this means all four rotated corner
points individually satisfy `pointInPoly` against the simplified polygon and
no corner-to-corner edge properly crosses a polygon edge. -/
theorem claim1_containment_invariant :
    ∀ (poly : Polygon) (opts : Options) (rng : ℕ → ℝ) (fuel : ℕ),
      match largestRect poly opts rng fuel with
      | some (RetVal.rect r) => ContainmentOK poly opts r
      | some (RetVal.withEvents (some r) _) => ContainmentOK poly opts r
      | _ => True := by
  intro poly opts rng fuel
  cases h : largestRect poly opts rng fuel with
  | none => trivial
  | some rv =>
      cases rv with
      | null => trivial
      | rect r => exact (resultGood_of_run h rfl).1
      | withEvents o evs =>
          cases o with
          | none => trivial
          | some r => exact (resultGood_of_run h rfl).1

/-- C2.  Monotone best with strict replacement: over the whole
angle/origin/ratio sweep the best area never decreases (first conjunct,
stated at the `processAngles` level for any state satisfying the search
invariant); and each aspect-ratio pass either leaves the best candidate
untouched or strictly increases the best area — in particular the retained
rectangle is replaced only together with a strict area increase, so an
equal-area later candidate never evicts the first one found.  The strict
part assumes a positive `widthStep` (a non-degenerate simplified bounding
box), which is what makes each probe width exceed the binary-search lower
bound `max(minWidth, sqrt(maxArea * ratio))`. -/
theorem claim2_monotone_best :
    (∀ (c : SearchCtx) (ev : Bool) (origins : List Point) (fuel : ℕ) (angles : List ℝ)
        (s : SState),
        match processAngles c ev origins fuel angles s with
        | none => True
        | some s1 => GoodS c angles s → 0 ≤ c.widthStep → s.maxArea ≤ s1.maxArea) ∧
    (∀ (c : SearchCtx) (ev : Bool) (angleRad angle : ℝ) (origin : Point) (mw mh : ℝ)
        (fuel : ℕ) (aRatio : ℝ) (s : SState),
        match processARatio c ev angleRad angle origin mw mh fuel aRatio s with
        | none => True
        | some s1 =>
            0 < c.widthStep → 0 ≤ mh → 0 ≤ s.maxArea →
            s.maxArea ≤ s1.maxArea ∧ (s1.maxRect ≠ s.maxRect → s.maxArea < s1.maxArea)) := by
  constructor
  · intro c ev origins fuel angles s
    cases h : processAngles c ev origins fuel angles s with
    | none => trivial
    | some s1 =>
        intro hgood hws
        exact (processAngles_good c ev origins fuel angles hws angles (fun a ha => ha)
          s s1 h hgood).2
  · intro c ev angleRad angle origin mw mh fuel aRatio s
    cases h : processARatio c ev angleRad angle origin mw mh fuel aRatio s with
    | none => trivial
    | some s1 =>
        intro hws hmh hA
        rcases processARatio_progress c ev angleRad angle origin mw mh fuel aRatio s s1
            hws hmh hA h with ⟨h1, h2⟩ | h1
        · exact ⟨le_of_eq h1.symm, fun hne => absurd h2 hne⟩
        · exact ⟨le_of_lt h1, fun _ => h1⟩

/-- C3.  Diagnostic-mode purity: enabling the event trace changes neither
whether a candidate is returned nor any of its fields — the rectangle part
of the result with events enabled equals the rectangle part with events
disabled (and when no candidate was found, the events-enabled object carries
no candidate fields). -/
theorem claim3_events_purity :
    ∀ (poly : Polygon) (opts : Options) (rng : ℕ → ℝ) (fuel : ℕ),
      (largestRect poly { opts with events := true } rng fuel).map rectOf =
      (largestRect poly { opts with events := false } rng fuel).map rectOf := by
  intro poly opts rng fuel
  exact largestRect_events_rel poly opts rng fuel

/-- C4 (amended).  Of the two claimed lower bounds only the width bound
holds: every returned candidate has `width ≥ minWidth` (the binary search
never probes below `max(minWidth, ...)`), for explicit aspect-ratio lists
and derived ranges alike.  `minHeight` is NOT a lower bound on the returned
height: it only shapes the derived aspect-ratio upper bound and is ignored
entirely when an explicit aspect-ratio list is supplied (see the
counterexample). -/
theorem claim4_min_width_bound :
    ∀ (poly : Polygon) (opts : Options) (rng : ℕ → ℝ) (fuel : ℕ),
      match largestRect poly opts rng fuel with
      | some (RetVal.rect r) => opts.minWidth ≤ r.width
      | some (RetVal.withEvents (some r) _) => opts.minWidth ≤ r.width
      | _ => True := by
  intro poly opts rng fuel
  cases h : largestRect poly opts rng fuel with
  | none => trivial
  | some rv =>
      cases rv with
      | null => trivial
      | rect r => exact (resultGood_of_run h rfl).2.2
      | withEvents o evs =>
          cases o with
          | none => trivial
          | some r => exact (resultGood_of_run h rfl).2.2

/-- C4 counterexample.  On the unit square with explicit aspect ratio 4,
center (1/2, 1/2), angle 0, `minWidth = 97/100` and `minHeight = 9/10`,
the solver returns the rectangle `r4` whose height `197/800` is far below
`minHeight = 9/10`: the claimed bound `height ≥ minHeight` fails. -/
theorem claim4_cex :
    largestRect sqPoly c4opts (fun _ => 0) 2 = some (RetVal.rect r4) ∧
    r4.height < c4opts.minHeight := by
  refine ⟨c4_run, ?_⟩
  show (197 : ℝ)/800 < 9/10
  norm_num

/-- C5.  The rejection-sampling loop has NO attempt cap in the code: on the
doubled square (positive shoelace area 32, but parity-inside nowhere) with
simplification off and no explicit origins, the `while` loop never collects
a single interior point, so the call never returns no matter how many
iterations it is given (`none` for every fuel models the JavaScript
non-termination).  The claimed capped, `NoOriginFound`-style failure does
not exist in the code. -/
theorem claim5_sampling_uncapped :
    (3 ≤ dblSquare.length ∧ |polygonArea dblSquare| = 32) ∧
    ∀ (rng : ℕ → ℝ) (fuel : ℕ), largestRect dblSquare c5opts rng fuel = none := by
  constructor
  · constructor
    · norm_num [dblSquare]
    · rw [hAdbl]; norm_num
  · intro rng fuel
    exact largestRect_dblSquare_diverges rng fuel

/-- C6.  Degenerate-input handling: an input with fewer than 3 points and
an input of zero unsigned shoelace area both make `largestRect` return the
typed empty result (`null`) immediately — no search is run and no fault is
raised, whatever the remaining options. -/
theorem claim6_degenerate_inputs :
    (∀ (poly : Polygon) (opts : Options) (rng : ℕ → ℝ) (fuel : ℕ),
        poly.length < 3 → largestRect poly opts rng fuel = some RetVal.null) ∧
    (∀ (poly : Polygon) (opts : Options) (rng : ℕ → ℝ) (fuel : ℕ),
        |polygonArea poly| = 0 → largestRect poly opts rng fuel = some RetVal.null) := by
  constructor
  · exact largestRect_short
  · exact largestRect_zero_area

/-- C6 witness: the two degenerate inputs of the spec's boundary tests — a
two-point polygon and three collinear points — both produce `null`. -/
theorem claim6_witness :
    largestRect [((0:ℝ), (0:ℝ)), (1, 0)] defaultOptions (fun _ => 0) 0 = some RetVal.null ∧
    largestRect [((0:ℝ), (0:ℝ)), (1, 0), (2, 0)] defaultOptions (fun _ => 0) 0 =
      some RetVal.null := by
  constructor
  · exact claim6_degenerate_inputs.1 _ _ _ _ (by norm_num)
  · exact claim6_degenerate_inputs.2 _ _ _ _
      (by norm_num [polygonArea, edges, edgesAux, List.foldl])

/-- C7.  The pruning step: at a recentered origin the bounds are
`maxWidth/maxHeight = 2 * sqrt(min squared distance to the nearer ray-boundary
intersection on each side)` along the width and height axes respectively
(first two conjuncts), and whenever `maxWidth * maxHeight` is below the
current best area the origin/angle combination is skipped entirely — the
state is returned unchanged except for the diagnostic origin event, with no
aspect-ratio enumeration and no containment test (third conjunct). -/
theorem claim7_prune_step :
    (∀ (poly : Polygon) (origin : Point) (angleRad : ℝ) (p1 p2 : Point),
        rayIntersectsPoly poly origin angleRad = (some p1, some p2) →
        maxWidthAt poly origin angleRad =
          some (2 * Real.sqrt (min (squaredDistance origin p1) (squaredDistance origin p2)))) ∧
    (∀ (poly : Polygon) (origin : Point) (angleRad : ℝ),
        maxHeightAt poly origin angleRad = maxWidthAt poly origin (angleRad + Real.pi / 2)) ∧
    (∀ (c : SearchCtx) (ev : Bool) (angleRad angle : ℝ) (fuel : ℕ) (origin : Point)
        (s : SState) (mw mh : ℝ),
        maxWidthAt c.poly origin angleRad = some mw →
        maxHeightAt c.poly origin angleRad = some mh →
        mw * mh < s.maxArea →
        processModifOrigin c ev angleRad angle fuel origin s =
          some (pushEv ev s (.origin origin.1 origin.2))) := by
  refine ⟨maxWidthAt_eq, fun _ _ _ => rfl, ?_⟩
  intro c ev angleRad angle fuel origin s mw mh hmw hmh hlt
  exact processModifOrigin_prune c ev angleRad angle fuel origin s mw mh hmw hmh hlt

/-- C8.  Determinism with explicit origins: a single supplied point is
wrapped into a one-element list and a supplied list is used verbatim (first
two conjuncts); and with a supplied origin (a point, or a nonempty list)
the random stream is never consulted, so two calls with identical polygon
and options give identical results whatever their random sources. -/
theorem claim8_explicit_origins :
    (∀ p : Point, originsOf (OriginOpt.pt p) = [p]) ∧
    (∀ ps : List Point, originsOf (OriginOpt.pts ps) = ps) ∧
    (∀ (poly : Polygon) (opts : Options) (rng1 rng2 : ℕ → ℝ) (fuel : ℕ),
        match opts.origin with
        | OriginOpt.missing => True
        | OriginOpt.pt p =>
            largestRect poly opts rng1 fuel = largestRect poly opts rng2 fuel
        | OriginOpt.pts ps =>
            ps ≠ [] → largestRect poly opts rng1 fuel = largestRect poly opts rng2 fuel) := by
  refine ⟨fun _ => rfl, fun _ => rfl, ?_⟩
  intro poly opts rng1 rng2 fuel
  cases ho : opts.origin with
  | missing => trivial
  | pt p =>
      exact largestRect_rng_irrelevant poly opts rng1 rng2 fuel
        (by rw [ho]; simp [originsOf])
  | pts ps =>
      intro hne
      exact largestRect_rng_irrelevant poly opts rng1 rng2 fuel
        (by rw [ho]; simpa [originsOf] using hne)

/-- C9.  Result shape contract: every returned candidate's `area` equals
`width * height`, its angle (in degrees) is an element of the derived angle
list, and its `points` are exactly the four corners of the
`width × height` rectangle centered at `(cx, cy)` — the recentered origin
the candidate was built around — rotated about that center, with the first
corner repeated, i.e. five entries whose last equals the first. -/
theorem claim9_result_shape :
    ∀ (poly : Polygon) (opts : Options) (rng : ℕ → ℝ) (fuel : ℕ),
      match largestRect poly opts rng fuel with
      | some (RetVal.rect r) => ShapeOK opts r
      | some (RetVal.withEvents (some r) _) => ShapeOK opts r
      | _ => True := by
  intro poly opts rng fuel
  cases h : largestRect poly opts rng fuel with
  | none => trivial
  | some rv =>
      cases rv with
      | null => trivial
      | rect r => exact (resultGood_of_run h rfl).2.1
      | withEvents o evs =>
          cases o with
          | none => trivial
          | some r => exact (resultGood_of_run h rfl).2.1

/-- C10.  Malformed `angle` option: when `options.angle` is neither an
array, a number, nor a numeric string, the derived angle list is empty, so
the search iterates over nothing and the call yields no candidate — plain
`null` when diagnostics are off, never an error and never the default
sweep. -/
theorem claim10_malformed_angle :
    ∀ (poly : Polygon) (opts : Options) (rng : ℕ → ℝ) (fuel : ℕ),
      match opts.angle with
      | NumOpt.badInput =>
          numListOf opts.angle = [] ∧
          (match largestRect poly opts rng fuel with
           | none => True
           | some rv => rectOf rv = none ∧ (opts.events = false → rv = RetVal.null))
      | _ => True := by
  intro poly opts rng fuel
  cases ha : opts.angle with
  | badInput =>
      refine ⟨rfl, ?_⟩
      cases h : largestRect poly opts rng fuel with
      | none => trivial
      | some rv => exact largestRect_empty_angles poly opts rng fuel rv (by rw [ha]; rfl) h
  | list xs => trivial
  | num x => trivial
  | numStr x => trivial

end D3Rect

namespace D3Rect

lemma c4_run_events :
    (largestRect sqPoly { c4opts with events := true } (fun _ => 0) 2).map rectOf =
      some (some r4) := by
  rw [largestRect_events_rel]
  rw [show ({ c4opts with events := false } : Options) = c4opts from rfl]
  rw [c4_run]
  rfl

end D3Rect
